import Mathlib

/-!
# pkg: the command dispatch front end (`src/pkg/main.c`)

A shallow embedding of `main.c`: the command table `cmd`, the two usage
routines, `exec_help`, `event_callback` and `main`, followed by theorems about
them.

Modelling conventions.

* A C string is a `String`: the bytes before the terminating NUL.  `strlen`,
  `strcmp` and `strncmp` are written over the character lists.
* A function pointer is the symbol of the function it points to
  (`some "exec_add"`), `none` is `NULL`.  A call through a pointer to
  `exec_help` runs `exec_help`, the body of which is in `main.c`, and ends the
  way it ends, by a return or by `errx`.  The bodies of the other subcommand
  entry points live in other translation units; what such a call returns is
  read from the environment (`Env.run`).
* Observable actions (writes to the two streams, `warnx`, `system`, calls
  through a handler pointer, the registration of the event callback) are
  collected, in program order, in a trace of `Effect`s.
* `unsigned int ambiguous` is a natural number reduced modulo `2 ^ 32` after
  each increment.
-/

namespace Pkg

/-- The value of `EX_USAGE` in `<sysexits.h>`. -/
def EX_USAGE : Int := 64

/-- One row of the command table: `struct commands`. -/
structure commands where
  name : String
  exec : Option String
  usage : Option String
  deriving DecidableEq, Repr

/-- The command table `cmd[]` of `main.c`. -/
def cmd : List commands :=
  [ ⟨"add", some "exec_add", some "usage_add"⟩,
    ⟨"create", some "exec_create", some "usage_create"⟩,
    ⟨"delete", some "exec_delete", some "usage_delete"⟩,
    ⟨"help", some "exec_help", some "usage_help"⟩,
    ⟨"info", some "exec_info", some "usage_info"⟩,
    ⟨"register", some "exec_register", some "usage_register"⟩,
    ⟨"repo", some "exec_repo", some "usage_repo"⟩,
    ⟨"update", some "exec_update", some "usage_update"⟩,
    ⟨"upgrade", some "exec_upgrade", some "usage_upgrade"⟩,
    ⟨"version", some "exec_version", some "usage_version"⟩,
    ⟨"which", some "exec_which", some "usage_which"⟩ ]

/-- An observable action of the program. -/
inductive Effect where
  | stdout (s : String)
  | stderr (s : String)
  | warnx (s : String)
  | errx (code : Int) (s : String)
  | pkg_get_handle
  | pkg_handle_set_event_callback (callback : String)
  | call (f : String) (argc : Int) (argv : List String)
  | system (command : String)
  deriving DecidableEq, Repr

/-- How a routine ends: it returns a value, it ends the process with `exit`,
an `assert` fails, or it reads past the end of the argument vector. -/
inductive Status where
  | returned (v : Int)
  | exited (v : Int)
  | aborted
  | fault
  deriving DecidableEq, Repr

/-- The trace of a run together with the way it ended. -/
structure Outcome where
  trace : List Effect
  status : Status
  deriving DecidableEq, Repr

/-- What the code cannot decide by itself: the value a function of another
translation unit returns when it is called through a handler pointer, whether
`asprintf` obtains memory for the text it formats, and the value `system`
returns. -/
structure Env where
  run : String → Int → List String → Int
  asprintf_ok : String → Bool
  system : String → Int

/-- The C library `strlen`. -/
def strlen (s : String) : Nat := s.data.length

/-- The comparison loop of `strcmp` over the bytes of both strings; the result
is negative, zero or positive. -/
def strcmp_bytes : List Char → List Char → Int
  | [], [] => 0
  | [], _ :: _ => -1
  | _ :: _, [] => 1
  | a :: s1, b :: s2 =>
    if a = b then strcmp_bytes s1 s2 else if a.toNat < b.toNat then -1 else 1

/-- The C library `strcmp`. -/
def strcmp (s1 s2 : String) : Int := strcmp_bytes s1.data s2.data

/-- The comparison loop of `strncmp`: at most `n` bytes are compared. -/
def strncmp_bytes : List Char → List Char → Nat → Int
  | _, _, 0 => 0
  | [], [], _ + 1 => 0
  | [], _ :: _, _ + 1 => -1
  | _ :: _, [], _ + 1 => 1
  | a :: s1, b :: s2, n + 1 =>
    if a = b then strncmp_bytes s1 s2 n else if a.toNat < b.toNat then -1 else 1

/-- The C library `strncmp`. -/
def strncmp (s1 s2 : String) (n : Nat) : Int := strncmp_bytes s1.data s2.data n

/-- The loop `for (i = 0; i < cmd_len; i++) fprintf(stderr, "\t%s\n", cmd[i].name)`
shared by `usage` and `usage_help`. -/
def name_lines (tbl : List commands) : List Effect :=
  tbl.map (fun c => Effect.stderr ("\t" ++ c.name ++ "\n"))

/-- The routine `usage`: it ends the process with `EX_USAGE`. -/
def usage (tbl : List commands) : Outcome :=
  ⟨[Effect.stderr "usage: pkg <command> [<args>]\n\n",
    Effect.stderr "Where <command> can be:\n"]
    ++ name_lines tbl
    ++ [Effect.stderr
      "\nFor more information on the different commands see 'pkg help <command>'.\n"],
   Status.exited EX_USAGE⟩

/-- The routine `usage_help`: it returns to its caller. -/
def usage_help (tbl : List commands) : List Effect :=
  [Effect.stderr "usage: pkg help <command>\n\n",
   Effect.stderr "Where <command> can be:\n"]
  ++ name_lines tbl

/-- The lookup loop of `exec_help` and the code after it. -/
def exec_help_loop (env : Env) (argv1 : String) : List commands → Outcome
  | [] =>
    ⟨[Effect.warnx ("'" ++ argv1 ++ "' is not a valid command.\n"),
      Effect.stderr "See 'pkg help' for more information on the commands.\n"],
     Status.returned EX_USAGE⟩
  | c :: rest =>
    if strcmp c.name argv1 = 0 then
      if env.asprintf_ok ("/usr/bin/man pkg-" ++ c.name) then
        ⟨[Effect.system ("/usr/bin/man pkg-" ++ c.name)], Status.returned 0⟩
      else
        ⟨[Effect.errx 1 "cannot allocate memory"], Status.exited 1⟩
    else exec_help_loop env argv1 rest

/-- The routine `exec_help`. -/
def exec_help (tbl : List commands) (env : Env) (argc : Int) (argv : List String) :
    Outcome :=
  if argc ≠ 2 then ⟨usage_help tbl, Status.returned EX_USAGE⟩
  else
    match argv[1]? with
    | none => ⟨[], Status.fault⟩
    | some argv1 =>
      if strcmp "help" argv1 = 0 then ⟨usage_help tbl, Status.returned EX_USAGE⟩
      else exec_help_loop env argv1 tbl

/-- The resolution loop of `main` (lines 139 to 156), run over the entries from
index `i` on with the current values of `command` (the index of the entry it
points to) and `ambiguous`; the result is the value of both after the loop. -/
def main_scan (argv1 : String) (len : Nat) :
    List commands → Nat → Option Nat → Nat → Option Nat × Nat
  | [], _, command, ambiguous => (command, ambiguous)
  | c :: rest, i, command, ambiguous =>
    if strncmp argv1 c.name len = 0 then
      if len = strlen c.name then (some i, 0)
      else main_scan argv1 len rest (i + 1) (some i) ((ambiguous + 1) % 2 ^ 32)
    else main_scan argv1 len rest (i + 1) command ambiguous

/-- The candidate listing loop of `main` (lines 172 to 174). -/
def candidate_lines (argv1 : String) (len : Nat) : List commands → List Effect
  | [] => []
  | c :: rest =>
    if strncmp argv1 c.name len = 0 then
      Effect.stderr ("\t" ++ c.name ++ "\n") :: candidate_lines argv1 len rest
    else candidate_lines argv1 len rest

/-- The call `command->exec(argc, argv)` through a pointer to the function `f`:
its own trace and the way it ends. The function `exec_help` is the one above,
over the same table; every other function is defined in another translation
unit and returns the value the environment gives. -/
def call_handler (tbl : List commands) (env : Env) (f : String) (argc : Int)
    (argv : List String) : Outcome :=
  if f = "exec_help" then exec_help tbl env argc argv
  else ⟨[], Status.returned (env.run f argc argv)⟩

/-- The two calls of `main` that install the event callback. -/
def install_callback : List Effect :=
  [Effect.pkg_get_handle, Effect.pkg_handle_set_event_callback "event_callback"]

/-- The routine `main`, over the command table `tbl`. -/
def main (tbl : List commands) (env : Env) (argc : Int) (argv : List String) : Outcome :=
  if argc < 2 then usage tbl
  else
    match argv[1]? with
    | none => ⟨install_callback, Status.fault⟩
    | some argv1 =>
      let len := strlen argv1
      match main_scan argv1 len tbl 0 none 0 with
      | (none, _) => ⟨install_callback ++ (usage tbl).trace, (usage tbl).status⟩
      | (some i, ambiguous) =>
        if ambiguous ≤ 1 then
          match tbl[i]? with
          | none => ⟨install_callback, Status.fault⟩
          | some command =>
            match command.exec with
            | none => ⟨install_callback, Status.aborted⟩
            | some f =>
              ⟨install_callback ++ [Effect.call f (argc - 1) argv.tail]
                ++ (call_handler tbl env f (argc - 1) argv.tail).trace,
               (call_handler tbl env f (argc - 1) argv.tail).status⟩
        else
          ⟨install_callback
            ++ [Effect.warnx ("'" ++ argv1 ++ "' is not a valid command.\n"),
                Effect.stderr "See 'pkg help' for more information on the commands.\n\n",
                Effect.stderr ("Command '" ++ argv1 ++ "' could be one of the following:\n")]
            ++ candidate_lines argv1 len tbl,
           Status.returned EX_USAGE⟩

/-- The name `name` starts with the token `tok`: the token is a leading
substring of the name (the whole name included). -/
def starts_with (name tok : String) : Prop := tok.data <+: name.data

instance (name tok : String) : Decidable (starts_with name tok) := by
  unfold starts_with; infer_instance

/-- The entries of the table whose name starts with the token, in table
order. -/
def candidates (tbl : List commands) (tok : String) : List commands :=
  tbl.filter (fun c => decide (starts_with c.name tok))

/-- The calls through a handler pointer recorded in a trace, in order. -/
def handler_calls : List Effect → List (String × Int × List String)
  | [] => []
  | Effect.call f argc argv :: rest => (f, argc, argv) :: handler_calls rest
  | _ :: rest => handler_calls rest

/-- The commands handed to `system` recorded in a trace, in order. -/
def viewer_calls : List Effect → List String
  | [] => []
  | Effect.system s :: rest => s :: viewer_calls rest
  | _ :: rest => viewer_calls rest

/-- An environment in which every handler returns 0 and every allocation
succeeds. -/
def env0 : Env := ⟨fun _ _ _ => 0, fun _ => true, fun _ => 0⟩

/-- The entries of the table of whose name the token is a proper prefix, in
table order. -/
def proper_candidates (tbl : List commands) (tok : String) : List commands :=
  tbl.filter (fun c => decide (starts_with c.name tok ∧ c.name ≠ tok))

/-- The exit status of the process when `main` ends in the given way: the
value it returns or hands to `exit`. -/
def exit_status : Status → Option Int
  | Status.returned v => some v
  | Status.exited v => some v
  | Status.aborted => none
  | Status.fault => none

/-- An environment in which `asprintf` finds no memory. -/
def env_oom : Env := ⟨fun _ _ _ => 0, fun _ => false, fun _ => 0⟩

/-- An environment in which every handler returns 3. -/
def env3 : Env := ⟨fun _ _ _ => 3, fun _ => true, fun _ => 0⟩

/-- A table in which the name `up` stands between two names it is a proper
prefix of. -/
def tbl_up : List commands :=
  [ ⟨"upgrade", some "exec_upgrade", some "usage_upgrade"⟩,
    ⟨"up", some "exec_up", some "usage_up"⟩,
    ⟨"update", some "exec_update", some "usage_update"⟩ ]

/-- A table of two entries, the first name a proper prefix of the second. -/
def tbl_short : List commands :=
  [ ⟨"up", some "exec_up", some "usage_up"⟩,
    ⟨"update", some "exec_update", some "usage_update"⟩ ]

/-- Modelled from the spec: the event kinds `pkg_event_t`, declared in `pkg.h`,
which is not part of the sources at hand. The spec names install-begin and
archive-error and leaves the enumeration open; `other` stands for every
further kind. -/
inductive pkg_event_t where
  | PKG_EVENT_INSTALL_BEGIN
  | PKG_EVENT_ARCHIVE_ERROR
  | other (code : Nat)
  deriving DecidableEq, Repr

/-- What lies behind the untyped payloads of an event (`void *`, here
addresses) as far as `event_callback` looks at it: the result of
`pkg_get(p, PKG_NAME)`, the result of `archive_error_string(p)`, and the C
string at `p`; each is `none` where the call or the read yields no string.
The two accessors belong to the package and archive libraries and are taken
as given. -/
structure Payloads where
  pkg_get_name : Nat → Option String
  archive_error_string : Nat → Option String
  string_at : Nat → Option String

/-- The routine `event_callback`. The result is `none` when a branch formats,
with `%s`, a payload that yields no string, for which C defines no behaviour. -/
def event_callback (mem : Payloads) (ev : pkg_event_t) (arg0 arg1 : Nat) :
    Option Outcome :=
  match ev with
  | pkg_event_t.PKG_EVENT_INSTALL_BEGIN =>
    match mem.pkg_get_name arg0 with
    | some name => some ⟨[Effect.stdout ("Installing " ++ name ++ "\n")], Status.returned 0⟩
    | none => none
  | pkg_event_t.PKG_EVENT_ARCHIVE_ERROR =>
    match mem.string_at arg0, mem.archive_error_string arg1 with
    | some str0, some str1 =>
      some ⟨[Effect.stderr ("archive error on " ++ str0 ++ ": " ++ str1 ++ "\n")],
            Status.returned 0⟩
    | _, _ => none
  | pkg_event_t.other _ => some ⟨[], Status.returned 0⟩

/-- Payloads in which address 1 is a package named `foo` and nothing else
yields a string. -/
def mem_foo : Payloads :=
  ⟨fun p => if p = 1 then some "foo" else none, fun _ => none, fun _ => none⟩

/-- The text the `fprintf(stderr, ...)` calls of a trace write, in order. -/
def stderr_text : List Effect → String
  | [] => ""
  | Effect.stderr s :: rest => s ++ stderr_text rest
  | _ :: rest => stderr_text rest

/-- The effect writes to standard error. -/
def writes_stderr : Effect → Bool
  | Effect.stderr _ => true
  | Effect.warnx _ => true
  | Effect.errx _ _ => true
  | _ => false

/-- The effect writes to standard output. -/
def writes_stdout : Effect → Bool
  | Effect.stdout _ => true
  | _ => false

/-- The command name a line of a listing shows: the text between the leading
tab and the final newline; `none` for a write that does not start with a tab. -/
def listed_name : Effect → Option String
  | Effect.stderr s =>
    match s.data with
    | '\t' :: rest => some ⟨rest.dropLast⟩
    | _ => none
  | _ => none

/-- The command names a trace lists, in the order they are written. -/
def listed_names (trace : List Effect) : List String :=
  trace.filterMap listed_name

/-- A table with a null handler. -/
def tbl_null : List commands :=
  [ ⟨"add", none, some "usage_add"⟩ ]

/-! ## The string functions -/

theorem strncmp_bytes_eq_zero (t : List Char) :
    ∀ s : List Char, strncmp_bytes t s t.length = 0 ↔ t <+: s := by
  induction t with
  | nil => intro s; simp [strncmp_bytes]
  | cons a t ih =>
    intro s
    cases s with
    | nil => simp [strncmp_bytes]
    | cons b s =>
      by_cases hab : a = b
      · subst hab
        simp [strncmp_bytes, ih s]
      · have hne : ¬ (a :: t <+: b :: s) := by
          rw [List.cons_prefix_cons]; exact fun h => hab h.1
        simp only [List.length_cons, strncmp_bytes, hab, if_false, hne, iff_false]
        split <;> decide

theorem strncmp_eq_zero (tok name : String) :
    strncmp tok name (strlen tok) = 0 ↔ starts_with name tok := by
  unfold strncmp strlen starts_with
  exact strncmp_bytes_eq_zero tok.data name.data

theorem strcmp_bytes_eq_zero (a : List Char) :
    ∀ b : List Char, strcmp_bytes a b = 0 ↔ a = b := by
  induction a with
  | nil => intro b; cases b <;> simp [strcmp_bytes]
  | cons x a ih =>
    intro b
    cases b with
    | nil => simp [strcmp_bytes]
    | cons y b =>
      by_cases hxy : x = y
      · subst hxy
        simp [strcmp_bytes, ih b]
      · have hne : ¬ (x :: a = y :: b) := fun h => hxy (List.cons.inj h).1
        simp only [strcmp_bytes, hxy, if_false, hne, iff_false]
        split <;> decide

theorem strcmp_eq_zero (a b : String) : strcmp a b = 0 ↔ a = b := by
  unfold strcmp
  rw [strcmp_bytes_eq_zero]
  constructor
  · intro h; exact String.ext h
  · intro h; rw [h]

theorem starts_with_self (s : String) : starts_with s s := List.prefix_refl _

theorem eq_of_starts_with_of_strlen {name tok : String} (h : starts_with name tok)
    (hlen : strlen tok = strlen name) : name = tok :=
  String.ext (h.eq_of_length hlen).symm

theorem strlen_ne_of_starts_with {name tok : String} (h : starts_with name tok)
    (hne : name ≠ tok) : strlen tok ≠ strlen name :=
  fun hlen => hne (eq_of_starts_with_of_strlen h hlen)

/-! ## The resolution loop -/

theorem main_scan_cons_miss {tok : String} {c : commands} (h : ¬ starts_with c.name tok)
    (rest : List commands) (i : Nat) (command : Option Nat) (ambiguous : Nat) :
    main_scan tok (strlen tok) (c :: rest) i command ambiguous
      = main_scan tok (strlen tok) rest (i + 1) command ambiguous := by
  have h0 : ¬ strncmp tok c.name (strlen tok) = 0 := by
    rw [strncmp_eq_zero]; exact h
  show (if strncmp tok c.name (strlen tok) = 0 then _ else _) = _
  rw [if_neg h0]

theorem main_scan_cons_exact {tok : String} {c : commands} (h : c.name = tok)
    (rest : List commands) (i : Nat) (command : Option Nat) (ambiguous : Nat) :
    main_scan tok (strlen tok) (c :: rest) i command ambiguous = (some i, 0) := by
  have h0 : strncmp tok c.name (strlen tok) = 0 := by
    rw [strncmp_eq_zero, h]; exact starts_with_self tok
  have h1 : strlen tok = strlen c.name := by rw [h]
  show (if strncmp tok c.name (strlen tok) = 0 then
    (if strlen tok = strlen c.name then _ else _) else _) = _
  rw [if_pos h0, if_pos h1]

theorem main_scan_cons_proper {tok : String} {c : commands} (h : starts_with c.name tok)
    (hne : c.name ≠ tok)
    (rest : List commands) (i : Nat) (command : Option Nat) (ambiguous : Nat) :
    main_scan tok (strlen tok) (c :: rest) i command ambiguous
      = main_scan tok (strlen tok) rest (i + 1) (some i) ((ambiguous + 1) % 2 ^ 32) := by
  have h0 : strncmp tok c.name (strlen tok) = 0 := (strncmp_eq_zero tok c.name).2 h
  have h1 : ¬ strlen tok = strlen c.name := strlen_ne_of_starts_with h hne
  show (if strncmp tok c.name (strlen tok) = 0 then
    (if strlen tok = strlen c.name then _ else _) else _) = _
  rw [if_pos h0, if_neg h1]

theorem main_scan_skip (tok : String) (pre rest : List commands)
    (hpre : ∀ c ∈ pre, ¬ starts_with c.name tok) :
    ∀ (i : Nat) (command : Option Nat) (ambiguous : Nat),
      main_scan tok (strlen tok) (pre ++ rest) i command ambiguous
        = main_scan tok (strlen tok) rest (i + pre.length) command ambiguous := by
  induction pre with
  | nil => intro i command ambiguous; simp
  | cons p pre ih =>
    intro i command ambiguous
    have hidx : i + 1 + pre.length = i + (p :: pre).length := by
      rw [List.length_cons]; omega
    rw [List.cons_append, main_scan_cons_miss (hpre p (List.mem_cons_self _ _)),
      ih (fun c hc => hpre c (List.mem_cons_of_mem _ hc)), hidx]

theorem main_scan_none (tok : String) (l : List commands)
    (hl : ∀ c ∈ l, ¬ starts_with c.name tok) (i : Nat) (command : Option Nat)
    (ambiguous : Nat) :
    main_scan tok (strlen tok) l i command ambiguous = (command, ambiguous) := by
  have h := main_scan_skip tok l [] hl i command ambiguous
  rw [List.append_nil] at h
  rw [h]; rfl

theorem main_scan_exact (tok : String) (c : commands) (post : List commands)
    (hc : c.name = tok) (pre : List commands) (hpre : ∀ p ∈ pre, p.name ≠ tok) :
    ∀ (i : Nat) (command : Option Nat) (ambiguous : Nat),
      main_scan tok (strlen tok) (pre ++ c :: post) i command ambiguous
        = (some (i + pre.length), 0) := by
  induction pre with
  | nil =>
    intro i command ambiguous
    rw [List.nil_append, main_scan_cons_exact hc]; rfl
  | cons p pre ih =>
    intro i command ambiguous
    have ih2 := ih (fun q hq => hpre q (List.mem_cons_of_mem _ hq))
    have hpne : p.name ≠ tok := hpre p (List.mem_cons_self _ _)
    have hidx : i + 1 + pre.length = i + (p :: pre).length := by
      rw [List.length_cons]; omega
    by_cases hp : starts_with p.name tok
    · rw [List.cons_append, main_scan_cons_proper hp hpne, ih2, hidx]
    · rw [List.cons_append, main_scan_cons_miss hp, ih2, hidx]

theorem main_scan_single (tok : String) (pre post : List commands) (c : commands)
    (hpre : ∀ p ∈ pre, ¬ starts_with p.name tok)
    (hpost : ∀ p ∈ post, ¬ starts_with p.name tok)
    (hc : starts_with c.name tok) (hne : c.name ≠ tok)
    (i : Nat) (command : Option Nat) (ambiguous : Nat) :
    main_scan tok (strlen tok) (pre ++ c :: post) i command ambiguous
      = (some (i + pre.length), (ambiguous + 1) % 2 ^ 32) := by
  rw [main_scan_skip tok pre (c :: post) hpre, main_scan_cons_proper hc hne,
    main_scan_none tok post hpost]

theorem candidates_cons_pos {tok : String} {c : commands} (h : starts_with c.name tok)
    (l : List commands) : candidates (c :: l) tok = c :: candidates l tok := by
  simp [candidates, h]

theorem candidates_cons_neg {tok : String} {c : commands} (h : ¬ starts_with c.name tok)
    (l : List commands) : candidates (c :: l) tok = candidates l tok := by
  simp [candidates, h]

theorem mem_candidates {tok : String} {l : List commands} {c : commands} :
    c ∈ candidates l tok ↔ c ∈ l ∧ starts_with c.name tok := by
  simp [candidates]

theorem main_scan_count (tok : String) (l : List commands)
    (hl : ∀ c ∈ l, c.name ≠ tok) :
    ∀ (i : Nat) (command : Option Nat) (ambiguous : Nat), ambiguous < 2 ^ 32 →
      (main_scan tok (strlen tok) l i command ambiguous).2
        = (ambiguous + (candidates l tok).length) % 2 ^ 32 := by
  induction l with
  | nil =>
    intro i command ambiguous ha
    show ambiguous = (ambiguous + 0) % 2 ^ 32
    rw [Nat.add_zero, Nat.mod_eq_of_lt ha]
  | cons p l ih =>
    intro i command ambiguous ha
    have ih2 := ih (fun q hq => hl q (List.mem_cons_of_mem _ hq))
    have hpne : p.name ≠ tok := hl p (List.mem_cons_self _ _)
    by_cases hp : starts_with p.name tok
    · have hlt : (ambiguous + 1) % 2 ^ 32 < 2 ^ 32 := Nat.mod_lt _ (by norm_num)
      rw [main_scan_cons_proper hp hpne, ih2 _ _ _ hlt, candidates_cons_pos hp,
        List.length_cons]
      omega
    · rw [main_scan_cons_miss hp, ih2 _ _ _ ha, candidates_cons_neg hp]

theorem main_scan_some (tok : String) (len : Nat) (l : List commands) :
    ∀ (i j : Nat) (ambiguous : Nat),
      ∃ k, (main_scan tok len l i (some j) ambiguous).1 = some k := by
  induction l with
  | nil => intro i j ambiguous; exact ⟨j, rfl⟩
  | cons p l ih =>
    intro i j ambiguous
    show ∃ k, (if strncmp tok p.name len = 0 then
      (if len = strlen p.name then (some i, 0)
        else main_scan tok len l (i + 1) (some i) ((ambiguous + 1) % 2 ^ 32))
      else main_scan tok len l (i + 1) (some j) ambiguous).1 = some k
    split
    · split
      · exact ⟨i, rfl⟩
      · exact ih _ _ _
    · exact ih _ _ _

theorem main_scan_found (tok : String) (l : List commands)
    (hl : ∃ c ∈ l, starts_with c.name tok) :
    ∀ (i : Nat) (command : Option Nat) (ambiguous : Nat),
      ∃ k, (main_scan tok (strlen tok) l i command ambiguous).1 = some k := by
  induction l with
  | nil => obtain ⟨c, hc, _⟩ := hl; cases hc
  | cons p l ih =>
    intro i command ambiguous
    by_cases hp : starts_with p.name tok
    · by_cases hpe : p.name = tok
      · rw [main_scan_cons_exact hpe]; exact ⟨i, rfl⟩
      · rw [main_scan_cons_proper hp hpe]; exact main_scan_some tok _ l _ _ _
    · rw [main_scan_cons_miss hp]
      obtain ⟨c, hc, hcs⟩ := hl
      rcases List.mem_cons.1 hc with rfl | hc
      · exact absurd hcs hp
      · exact ih ⟨c, hc, hcs⟩ _ _ _

theorem candidate_lines_eq (tok : String) (l : List commands) :
    candidate_lines tok (strlen tok) l = name_lines (candidates l tok) := by
  induction l with
  | nil => rfl
  | cons p l ih =>
    by_cases hp : starts_with p.name tok
    · have h0 : strncmp tok p.name (strlen tok) = 0 := (strncmp_eq_zero tok p.name).2 hp
      show (if strncmp tok p.name (strlen tok) = 0 then _ else _) = _
      rw [if_pos h0, ih, candidates_cons_pos hp]; rfl
    · have h0 : ¬ strncmp tok p.name (strlen tok) = 0 := by
        rw [strncmp_eq_zero]; exact hp
      show (if strncmp tok p.name (strlen tok) = 0 then _ else _) = _
      rw [if_neg h0, ih, candidates_cons_neg hp]

theorem main_scan_index (tok : String) (len : Nat) (l : List commands) :
    ∀ (i : Nat) (command : Option Nat) (ambiguous k a : Nat),
      main_scan tok len l i command ambiguous = (some k, a) →
      command = some k ∨ (i ≤ k ∧ k < i + l.length) := by
  induction l with
  | nil =>
    intro i command ambiguous k a h
    left
    exact congrArg Prod.fst h
  | cons p l ih =>
    intro i command ambiguous k a h
    have h2 : (if strncmp tok p.name len = 0 then
      (if len = strlen p.name then (some i, 0)
        else main_scan tok len l (i + 1) (some i) ((ambiguous + 1) % 2 ^ 32))
      else main_scan tok len l (i + 1) command ambiguous) = (some k, a) := h
    rw [List.length_cons]
    split at h2
    · split at h2
      · have hk : i = k := Option.some.inj (congrArg Prod.fst h2)
        right; omega
      · rcases ih _ _ _ _ _ h2 with h3 | h3
        · have hk : i = k := Option.some.inj h3
          right; omega
        · right; omega
    · rcases ih _ _ _ _ _ h2 with h3 | h3
      · left; exact h3
      · right; omega

/-! ## The three ways `main` ends after the loop -/

theorem two_le_argc {argc : Int} {argv : List String} {tok : String}
    (hargc : argc = argv.length) (h1 : argv[1]? = some tok) : ¬ argc < 2 := by
  obtain ⟨h, _⟩ := List.getElem?_eq_some.1 h1
  omega

theorem call_handler_of_other (tbl : List commands) (env : Env) (f : String)
    (argc : Int) (argv : List String) (h : f ≠ "exec_help") :
    call_handler tbl env f argc argv = ⟨[], Status.returned (env.run f argc argv)⟩ := by
  unfold call_handler
  rw [if_neg h]

theorem call_handler_of_exec_help (tbl : List commands) (env : Env) (argc : Int)
    (argv : List String) :
    call_handler tbl env "exec_help" argc argv = exec_help tbl env argc argv := by
  unfold call_handler
  rw [if_pos rfl]

theorem main_of_scan_resolved (tbl : List commands) (env : Env) (argc : Int)
    (argv : List String) (tok : String) (i a : Nat) (c : commands) (f : String)
    (hargc : ¬ argc < 2) (h1 : argv[1]? = some tok)
    (hscan : main_scan tok (strlen tok) tbl 0 none 0 = (some i, a)) (ha : a ≤ 1)
    (hi : tbl[i]? = some c) (hf : c.exec = some f) :
    main tbl env argc argv
      = ⟨install_callback ++ [Effect.call f (argc - 1) argv.tail]
          ++ (call_handler tbl env f (argc - 1) argv.tail).trace,
         (call_handler tbl env f (argc - 1) argv.tail).status⟩
    ∧ (f ≠ "exec_help" →
        main tbl env argc argv
          = ⟨install_callback ++ [Effect.call f (argc - 1) argv.tail],
             Status.returned (env.run f (argc - 1) argv.tail)⟩) := by
  have hmain : main tbl env argc argv
      = ⟨install_callback ++ [Effect.call f (argc - 1) argv.tail]
          ++ (call_handler tbl env f (argc - 1) argv.tail).trace,
         (call_handler tbl env f (argc - 1) argv.tail).status⟩ := by
    unfold main
    rw [if_neg hargc]
    simp only [h1, hscan, ha, if_true, hi, hf]
  refine ⟨hmain, fun hother => ?_⟩
  rw [hmain, call_handler_of_other tbl env f _ _ hother, List.append_nil]

theorem main_of_scan_ambiguous (tbl : List commands) (env : Env) (argc : Int)
    (argv : List String) (tok : String) (i a : Nat)
    (hargc : ¬ argc < 2) (h1 : argv[1]? = some tok)
    (hscan : main_scan tok (strlen tok) tbl 0 none 0 = (some i, a)) (ha : 2 ≤ a) :
    main tbl env argc argv
      = ⟨install_callback
          ++ [Effect.warnx ("'" ++ tok ++ "' is not a valid command.\n"),
              Effect.stderr "See 'pkg help' for more information on the commands.\n\n",
              Effect.stderr ("Command '" ++ tok ++ "' could be one of the following:\n")]
          ++ name_lines (candidates tbl tok),
         Status.returned EX_USAGE⟩ := by
  have ha2 : ¬ a ≤ 1 := by omega
  unfold main
  rw [if_neg hargc]
  simp only [h1, hscan, ha2, if_false, candidate_lines_eq]

theorem main_of_scan_not_found (tbl : List commands) (env : Env) (argc : Int)
    (argv : List String) (tok : String) (a : Nat)
    (hargc : ¬ argc < 2) (h1 : argv[1]? = some tok)
    (hscan : main_scan tok (strlen tok) tbl 0 none 0 = (none, a)) :
    main tbl env argc argv
      = ⟨install_callback ++ (usage tbl).trace, Status.exited EX_USAGE⟩ := by
  unfold main
  rw [if_neg hargc]
  simp only [h1, hscan]
  rfl

theorem getElem?_split (pre post : List commands) (c : commands) :
    (pre ++ c :: post)[pre.length]? = some c := by
  rw [List.getElem?_append_right (Nat.le_refl _), Nat.sub_self]
  exact List.getElem?_cons_zero

theorem scan_unique_candidate (tbl : List commands) (tok : String) (c : commands)
    (h : candidates tbl tok = [c]) :
    ∃ i a, tbl[i]? = some c ∧ a ≤ 1
      ∧ main_scan tok (strlen tok) tbl 0 none 0 = (some i, a) := by
  obtain ⟨pre, post, htbl, hpre, hc, hpost⟩ := List.filter_eq_cons_iff.1 h
  have hpre2 : ∀ p ∈ pre, ¬ starts_with p.name tok := by
    intro p hp; simpa using hpre p hp
  have hc2 : starts_with c.name tok := by simpa using hc
  have hpost2 : ∀ p ∈ post, ¬ starts_with p.name tok := by
    intro p hp
    have := List.filter_eq_nil_iff.1 hpost p hp
    simpa using this
  subst htbl
  by_cases hce : c.name = tok
  · refine ⟨pre.length, 0, getElem?_split pre post c, by omega, ?_⟩
    have hpre3 : ∀ p ∈ pre, p.name ≠ tok := by
      intro p hp hpe
      exact hpre2 p hp (hpe ▸ starts_with_self tok)
    rw [main_scan_exact tok c post hce pre hpre3, Nat.zero_add]
  · refine ⟨pre.length, 1, getElem?_split pre post c, by omega, ?_⟩
    rw [main_scan_single tok pre post c hpre2 hpost2 hc2 hce, Nat.zero_add]
    rfl

theorem length_candidates_le (tbl : List commands) (tok : String) :
    (candidates tbl tok).length ≤ tbl.length :=
  List.length_filter_le _ _

theorem scan_ambiguous (tbl : List commands) (tok : String)
    (hlen : tbl.length < 2 ^ 32) (hex : ∀ c ∈ tbl, c.name ≠ tok)
    (hamb : 2 ≤ (candidates tbl tok).length) :
    ∃ i, main_scan tok (strlen tok) tbl 0 none 0
      = (some i, (candidates tbl tok).length) := by
  have h2 := main_scan_count tok tbl hex 0 none 0 (by norm_num)
  have hle := length_candidates_le tbl tok
  rw [Nat.zero_add, Nat.mod_eq_of_lt (by omega)] at h2
  have hmem : ∃ c ∈ tbl, starts_with c.name tok := by
    cases hcs : candidates tbl tok with
    | nil => rw [hcs] at hamb; simp at hamb
    | cons c rest =>
      have hc : c ∈ candidates tbl tok := by rw [hcs]; exact List.mem_cons_self _ _
      exact ⟨c, (mem_candidates.1 hc).1, (mem_candidates.1 hc).2⟩
  obtain ⟨k, hk⟩ := main_scan_found tok tbl hmem 0 none 0
  exact ⟨k, Prod.ext hk h2⟩

theorem scan_not_found (tbl : List commands) (tok : String)
    (hno : candidates tbl tok = []) :
    main_scan tok (strlen tok) tbl 0 none 0 = (none, 0) := by
  apply main_scan_none
  intro c hc hs
  have : c ∈ candidates tbl tok := mem_candidates.2 ⟨hc, hs⟩
  rw [hno] at this
  cases this

/-! ## Traces -/

theorem handler_calls_append (l1 l2 : List Effect) :
    handler_calls (l1 ++ l2) = handler_calls l1 ++ handler_calls l2 := by
  induction l1 with
  | nil => rfl
  | cons e l1 ih => cases e <;> simp [handler_calls, ih]

theorem handler_calls_name_lines (tbl : List commands) :
    handler_calls (name_lines tbl) = [] := by
  induction tbl with
  | nil => rfl
  | cons c tbl ih => exact ih

theorem viewer_calls_append (l1 l2 : List Effect) :
    viewer_calls (l1 ++ l2) = viewer_calls l1 ++ viewer_calls l2 := by
  induction l1 with
  | nil => rfl
  | cons e l1 ih => cases e <;> simp [viewer_calls, ih]

theorem viewer_calls_name_lines (tbl : List commands) :
    viewer_calls (name_lines tbl) = [] := by
  induction tbl with
  | nil => rfl
  | cons c tbl ih => exact ih

theorem handler_calls_usage (tbl : List commands) :
    handler_calls (install_callback ++ (usage tbl).trace) = [] := by
  simp [usage, install_callback, handler_calls_append, handler_calls_name_lines,
    handler_calls]

theorem handler_calls_ambiguous (tbl : List commands) (tok : String) (a b c : String) :
    handler_calls (install_callback
      ++ [Effect.warnx a, Effect.stderr b, Effect.stderr c]
      ++ name_lines (candidates tbl tok)) = [] := by
  simp [install_callback, handler_calls_append, handler_calls_name_lines, handler_calls]

/-! ## Resolution in `main` -/

/-- C1. Exactness precedence: in a table with pairwise distinct names, a token
equal to the name of the entry at index `i` makes the resolution loop of `main`
end with `command` pointing to that entry and `ambiguous = 0`, and `main` calls
that entry's handler, also when the token is a proper prefix of other names
before or after it. The run ends the way the handler ends; a handler other
than `exec_help` returns, and `main` returns its value. -/
theorem exact_name_selects_its_entry (tbl : List commands) (env : Env) (argc : Int)
    (argv : List String) (tok : String) (i : Nat) (c : commands) (f : String)
    (hnodup : (tbl.map commands.name).Nodup)
    (hi : tbl[i]? = some c) (hname : c.name = tok) (hf : c.exec = some f)
    (hargc : argc = argv.length) (h1 : argv[1]? = some tok) :
    main_scan tok (strlen tok) tbl 0 none 0 = (some i, 0)
    ∧ main tbl env argc argv
        = ⟨install_callback ++ [Effect.call f (argc - 1) argv.tail]
            ++ (call_handler tbl env f (argc - 1) argv.tail).trace,
           (call_handler tbl env f (argc - 1) argv.tail).status⟩
    ∧ (f ≠ "exec_help" →
        main tbl env argc argv
          = ⟨install_callback ++ [Effect.call f (argc - 1) argv.tail],
             Status.returned (env.run f (argc - 1) argv.tail)⟩) := by
  obtain ⟨hlt, hget⟩ := List.getElem?_eq_some.1 hi
  have htbl : tbl = tbl.take i ++ c :: tbl.drop (i + 1) := by
    rw [← hget, ← List.drop_eq_getElem_cons hlt, List.take_append_drop]
  have hpre : ∀ p ∈ tbl.take i, p.name ≠ tok := by
    intro p hp hpe
    rw [htbl, List.map_append, List.map_cons] at hnodup
    have hdis := (List.nodup_append.1 hnodup).2.2
    exact hdis (List.mem_map_of_mem _ hp) (by rw [hpe, hname]; exact List.mem_cons_self _ _)
  have hscan : main_scan tok (strlen tok) tbl 0 none 0 = (some i, 0) := by
    have h := main_scan_exact tok c (tbl.drop (i + 1)) hname (tbl.take i) hpre 0 none 0
    rw [← htbl, Nat.zero_add, List.length_take, Nat.min_eq_left (Nat.le_of_lt hlt)] at h
    exact h
  exact ⟨hscan, main_of_scan_resolved tbl env argc argv tok i 0 c f
    (two_le_argc hargc h1) h1 hscan (by omega) hi hf⟩

theorem exact_name_selects_its_entry_witness :
    main_scan "up" (strlen "up") tbl_up 0 none 0 = (some 1, 0)
    ∧ main tbl_up env0 2 ["pkg", "up"]
        = ⟨[Effect.pkg_get_handle, Effect.pkg_handle_set_event_callback "event_callback",
            Effect.call "exec_up" 1 ["up"]],
           Status.returned 0⟩ :=
  ⟨(exact_name_selects_its_entry tbl_up env0 2 ["pkg", "up"] "up" 1
      ⟨"up", some "exec_up", some "usage_up"⟩ "exec_up" (by decide) rfl rfl rfl rfl rfl).1,
   (exact_name_selects_its_entry tbl_up env0 2 ["pkg", "up"] "up" 1
      ⟨"up", some "exec_up", some "usage_up"⟩ "exec_up" (by decide) rfl rfl rfl rfl rfl).2.2
      (by decide)⟩

/-- C2. Ambiguity: when no registered name equals the token and two or more
registered names start with it, `main` calls no handler, returns `EX_USAGE`, and
the candidate lines it prints are the names that start with the token, one line
per entry, in table order. The table has fewer than `2 ^ 32` entries, as
`cmd_len` is an `unsigned int`. -/
theorem ambiguous_token_is_rejected (tbl : List commands) (env : Env) (argc : Int)
    (argv : List String) (tok : String)
    (hlen : tbl.length < 2 ^ 32)
    (hargc : argc = argv.length) (h1 : argv[1]? = some tok)
    (hex : ∀ c ∈ tbl, c.name ≠ tok) (hamb : 2 ≤ (candidates tbl tok).length) :
    main tbl env argc argv
      = ⟨install_callback
          ++ [Effect.warnx ("'" ++ tok ++ "' is not a valid command.\n"),
              Effect.stderr "See 'pkg help' for more information on the commands.\n\n",
              Effect.stderr ("Command '" ++ tok ++ "' could be one of the following:\n")]
          ++ (candidates tbl tok).map (fun c => Effect.stderr ("\t" ++ c.name ++ "\n")),
         Status.returned EX_USAGE⟩
    ∧ handler_calls (main tbl env argc argv).trace = [] := by
  obtain ⟨i, hscan⟩ := scan_ambiguous tbl tok hlen hex hamb
  have hmain := main_of_scan_ambiguous tbl env argc argv tok i _
    (two_le_argc hargc h1) h1 hscan hamb
  refine ⟨hmain, ?_⟩
  rw [hmain]
  exact handler_calls_ambiguous tbl tok _ _ _

theorem ambiguous_token_is_rejected_witness :
    main cmd env0 2 ["pkg", "up"]
      = ⟨[Effect.pkg_get_handle, Effect.pkg_handle_set_event_callback "event_callback",
          Effect.warnx "'up' is not a valid command.\n",
          Effect.stderr "See 'pkg help' for more information on the commands.\n\n",
          Effect.stderr "Command 'up' could be one of the following:\n",
          Effect.stderr "\tupdate\n", Effect.stderr "\tupgrade\n"],
         Status.returned 64⟩
    ∧ handler_calls (main cmd env0 2 ["pkg", "up"]).trace = [] :=
  ambiguous_token_is_rejected cmd env0 2 ["pkg", "up"] "up" (by decide) rfl rfl
    (by decide) (by decide)

theorem candidates_eq_proper (tbl : List commands) (tok : String)
    (hex : ∀ c ∈ tbl, c.name ≠ tok) : candidates tbl tok = proper_candidates tbl tok := by
  unfold candidates proper_candidates
  apply List.filter_congr
  intro c hc
  have := hex c hc
  simp [this]

/-- C3 as stated fails: in the table `up`, `update` the names are distinct and
non-empty and the token `up` is a proper prefix of exactly one registered name,
`update`, yet the loop ends on the entry `up` (index 0), whose handler `main`
calls. -/
theorem proper_prefix_of_one_name_counterexample :
    (tbl_short.map commands.name).Nodup
    ∧ (∀ c ∈ tbl_short, c.name ≠ "")
    ∧ proper_candidates tbl_short "up"
        = [⟨"update", some "exec_update", some "usage_update"⟩]
    ∧ main_scan "up" (strlen "up") tbl_short 0 none 0 = (some 0, 0)
    ∧ tbl_short[0]? = some ⟨"up", some "exec_up", some "usage_up"⟩
    ∧ main tbl_short env0 2 ["pkg", "up"]
        = ⟨[Effect.pkg_get_handle, Effect.pkg_handle_set_event_callback "event_callback",
            Effect.call "exec_up" 1 ["up"]],
           Status.returned 0⟩ := by
  decide

/-- C3, amended. Unambiguous abbreviation: when the token equals no registered
name and is a proper prefix of the name of exactly one entry `c`, the loop of
`main` ends with `command` pointing to `c` and `ambiguous` at most 1, and `main`
calls the handler of `c`. (Distinct or non-empty names are not needed.) The
run ends the way the handler ends; a handler other than `exec_help` returns,
and `main` returns its value. -/
theorem unique_abbreviation_resolves (tbl : List commands) (env : Env) (argc : Int)
    (argv : List String) (tok : String) (c : commands) (f : String)
    (hprop : proper_candidates tbl tok = [c])
    (hex : ∀ c' ∈ tbl, c'.name ≠ tok)
    (hf : c.exec = some f)
    (hargc : argc = argv.length) (h1 : argv[1]? = some tok) :
    ∃ i a, tbl[i]? = some c ∧ a ≤ 1
      ∧ main_scan tok (strlen tok) tbl 0 none 0 = (some i, a)
      ∧ main tbl env argc argv
          = ⟨install_callback ++ [Effect.call f (argc - 1) argv.tail]
              ++ (call_handler tbl env f (argc - 1) argv.tail).trace,
             (call_handler tbl env f (argc - 1) argv.tail).status⟩
      ∧ (f ≠ "exec_help" →
          main tbl env argc argv
            = ⟨install_callback ++ [Effect.call f (argc - 1) argv.tail],
               Status.returned (env.run f (argc - 1) argv.tail)⟩) := by
  have hc : candidates tbl tok = [c] := by rw [candidates_eq_proper tbl tok hex, hprop]
  obtain ⟨i, a, hi, ha, hscan⟩ := scan_unique_candidate tbl tok c hc
  exact ⟨i, a, hi, ha, hscan, main_of_scan_resolved tbl env argc argv tok i a c f
    (two_le_argc hargc h1) h1 hscan ha hi hf⟩

theorem unique_abbreviation_resolves_witness :
    ∃ i a, cmd[i]? = some ⟨"version", some "exec_version", some "usage_version"⟩ ∧ a ≤ 1
      ∧ main_scan "ve" (strlen "ve") cmd 0 none 0 = (some i, a)
      ∧ main cmd env3 3 ["pkg", "ve", "-v"]
          = ⟨[Effect.pkg_get_handle, Effect.pkg_handle_set_event_callback "event_callback",
              Effect.call "exec_version" 2 ["ve", "-v"]],
             Status.returned 3⟩ := by
  obtain ⟨i, a, hi, ha, hscan, _, hmain⟩ :=
    unique_abbreviation_resolves cmd env3 3 ["pkg", "ve", "-v"] "ve"
      ⟨"version", some "exec_version", some "usage_version"⟩ "exec_version"
      (by decide) (by decide) rfl rfl rfl
  exact ⟨i, a, hi, ha, hscan, hmain (by decide)⟩

/-! ## The table of the program -/

theorem cmd_prefix_free :
    ∀ c ∈ cmd, ∀ c' ∈ cmd, starts_with c'.name c.name → c' = c := by
  decide

theorem cmd_nodup : cmd.Nodup := by
  decide

theorem cmd_exec_ne_null : ∀ c ∈ cmd, c.exec.isSome = true := by
  decide

theorem cmd_length : cmd.length < 2 ^ 32 := by
  decide

theorem length_le_one_of_all_eq {α : Type} (c : α) :
    ∀ l : List α, l.Nodup → (∀ x ∈ l, x = c) → l.length ≤ 1
  | [], _, _ => by simp
  | [_], _, _ => by simp
  | a :: b :: l, hnd, hall => by
    have ha : a = c := hall a (List.mem_cons_self _ _)
    have hb : b = c := hall b (List.mem_cons_of_mem _ (List.mem_cons_self _ _))
    have hne : a ≠ b := by
      intro hab
      have := (List.nodup_cons.1 hnd).1
      exact this (hab ▸ List.mem_cons_self _ _)
    exact absurd (ha.trans hb.symm) hne

theorem cmd_no_exact_of_ambiguous (tok : String) (hamb : 2 ≤ (candidates cmd tok).length) :
    ∀ c ∈ cmd, c.name ≠ tok := by
  intro c hc hname
  have hnd : (candidates cmd tok).Nodup := cmd_nodup.filter _
  have hall : ∀ x ∈ candidates cmd tok, x = c := by
    intro x hx
    obtain ⟨hxm, hxs⟩ := mem_candidates.1 hx
    rw [← hname] at hxs
    exact cmd_prefix_free c hc x hxm hxs
  have := length_le_one_of_all_eq c _ hnd hall
  omega

/-- C4. On the table of the program the outcome of `main` is decided by the
entries whose name starts with the token: exactly one such entry, its handler
is called, and the run ends the way the handler ends (a handler other than
`exec_help` returns, and `main` returns its value); two or more, no handler is
called, `EX_USAGE` is returned and those names are listed in table order; none,
no handler is called and the process ends through `usage` with `EX_USAGE`. -/
theorem cmd_outcome_by_candidates (env : Env) (argc : Int) (argv : List String)
    (tok : String) (hargc : argc = argv.length) (h1 : argv[1]? = some tok) :
    (∀ c, candidates cmd tok = [c] →
      ∃ f, c.exec = some f
        ∧ main cmd env argc argv
            = ⟨install_callback ++ [Effect.call f (argc - 1) argv.tail]
                ++ (call_handler cmd env f (argc - 1) argv.tail).trace,
               (call_handler cmd env f (argc - 1) argv.tail).status⟩
        ∧ (f ≠ "exec_help" →
            main cmd env argc argv
              = ⟨install_callback ++ [Effect.call f (argc - 1) argv.tail],
                 Status.returned (env.run f (argc - 1) argv.tail)⟩))
    ∧ (2 ≤ (candidates cmd tok).length →
        main cmd env argc argv
          = ⟨install_callback
              ++ [Effect.warnx ("'" ++ tok ++ "' is not a valid command.\n"),
                  Effect.stderr "See 'pkg help' for more information on the commands.\n\n",
                  Effect.stderr ("Command '" ++ tok ++ "' could be one of the following:\n")]
              ++ (candidates cmd tok).map (fun c => Effect.stderr ("\t" ++ c.name ++ "\n")),
             Status.returned EX_USAGE⟩
        ∧ handler_calls (main cmd env argc argv).trace = [])
    ∧ (candidates cmd tok = [] →
        main cmd env argc argv
          = ⟨install_callback ++ (usage cmd).trace, Status.exited EX_USAGE⟩
        ∧ handler_calls (main cmd env argc argv).trace = []) := by
  have h2 := two_le_argc hargc h1
  refine ⟨?_, ?_, ?_⟩
  · intro c hc
    obtain ⟨i, a, hi, ha, hscan⟩ := scan_unique_candidate cmd tok c hc
    have hmem : c ∈ cmd := List.getElem?_mem hi
    obtain ⟨f, hf⟩ := Option.isSome_iff_exists.1 (cmd_exec_ne_null c hmem)
    exact ⟨f, hf, main_of_scan_resolved cmd env argc argv tok i a c f h2 h1 hscan ha hi hf⟩
  · intro hamb
    have hex := cmd_no_exact_of_ambiguous tok hamb
    obtain ⟨i, hscan⟩ := scan_ambiguous cmd tok cmd_length hex hamb
    have hmain := main_of_scan_ambiguous cmd env argc argv tok i _ h2 h1 hscan hamb
    refine ⟨hmain, ?_⟩
    rw [hmain]
    exact handler_calls_ambiguous cmd tok _ _ _
  · intro hno
    have hmain := main_of_scan_not_found cmd env argc argv tok 0 h2 h1
      (scan_not_found cmd tok hno)
    refine ⟨hmain, ?_⟩
    rw [hmain]
    exact handler_calls_usage cmd

theorem cmd_outcome_by_candidates_witness :
    main cmd env0 2 ["pkg", "up"]
      = ⟨[Effect.pkg_get_handle, Effect.pkg_handle_set_event_callback "event_callback",
          Effect.warnx "'up' is not a valid command.\n",
          Effect.stderr "See 'pkg help' for more information on the commands.\n\n",
          Effect.stderr "Command 'up' could be one of the following:\n",
          Effect.stderr "\tupdate\n", Effect.stderr "\tupgrade\n"],
         Status.returned 64⟩
    ∧ main cmd env0 2 ["pkg", "ve"]
      = ⟨[Effect.pkg_get_handle, Effect.pkg_handle_set_event_callback "event_callback",
          Effect.call "exec_version" 1 ["ve"]],
         Status.returned 0⟩
    ∧ main cmd env0 2 ["pkg", "version"]
      = ⟨[Effect.pkg_get_handle, Effect.pkg_handle_set_event_callback "event_callback",
          Effect.call "exec_version" 1 ["version"]],
         Status.returned 0⟩
    ∧ main cmd env0 2 ["pkg", "zzz"]
      = ⟨[Effect.pkg_get_handle, Effect.pkg_handle_set_event_callback "event_callback"]
          ++ (usage cmd).trace,
         Status.exited 64⟩ := by
  refine ⟨?_, ?_, ?_, ?_⟩
  · exact ((cmd_outcome_by_candidates env0 2 ["pkg", "up"] "up" rfl rfl).2.1 (by decide)).1
  · obtain ⟨f, hf, _, hm⟩ := (cmd_outcome_by_candidates env0 2 ["pkg", "ve"] "ve" rfl rfl).1
      ⟨"version", some "exec_version", some "usage_version"⟩ (by decide)
    cases hf
    exact hm (by decide)
  · obtain ⟨f, hf, _, hm⟩ :=
      (cmd_outcome_by_candidates env0 2 ["pkg", "version"] "version" rfl rfl).1
        ⟨"version", some "exec_version", some "usage_version"⟩ (by decide)
    cases hf
    exact hm (by decide)
  · exact ((cmd_outcome_by_candidates env0 2 ["pkg", "zzz"] "zzz" rfl rfl).2.2 (by decide)).1

/-- C5. Not found: when no registered name starts with the token (a name equal
to the token starts with it), the loop of `main` leaves `command` null, no
handler is called, and the process ends through `usage` with `EX_USAGE`. -/
theorem unknown_token_ends_in_usage (tbl : List commands) (env : Env) (argc : Int)
    (argv : List String) (tok : String)
    (hargc : argc = argv.length) (h1 : argv[1]? = some tok)
    (hno : ∀ c ∈ tbl, ¬ starts_with c.name tok) :
    main_scan tok (strlen tok) tbl 0 none 0 = (none, 0)
    ∧ main tbl env argc argv
        = ⟨install_callback ++ (usage tbl).trace, Status.exited EX_USAGE⟩
    ∧ handler_calls (main tbl env argc argv).trace = [] := by
  have hscan := main_scan_none tok tbl hno 0 none 0
  have hmain := main_of_scan_not_found tbl env argc argv tok 0 (two_le_argc hargc h1) h1 hscan
  refine ⟨hscan, hmain, ?_⟩
  rw [hmain]
  exact handler_calls_usage tbl

theorem unknown_token_ends_in_usage_witness :
    main_scan "adds" (strlen "adds") cmd 0 none 0 = (none, 0)
    ∧ main cmd env0 2 ["pkg", "adds"]
        = ⟨install_callback ++ (usage cmd).trace, Status.exited 64⟩
    ∧ handler_calls (main cmd env0 2 ["pkg", "adds"]).trace = [] :=
  unknown_token_ends_in_usage cmd env0 2 ["pkg", "adds"] "adds" rfl rfl (by decide)

/-! ## Calls through a handler pointer -/

theorem exec_help_loop_cons (env : Env) (argv1 : String) (p : commands)
    (l : List commands) :
    exec_help_loop env argv1 (p :: l)
      = if strcmp p.name argv1 = 0 then
          if env.asprintf_ok ("/usr/bin/man pkg-" ++ p.name) then
            ⟨[Effect.system ("/usr/bin/man pkg-" ++ p.name)], Status.returned 0⟩
          else ⟨[Effect.errx 1 "cannot allocate memory"], Status.exited 1⟩
        else exec_help_loop env argv1 l :=
  rfl

theorem exec_help_loop_status (env : Env) (argv1 : String) (l : List commands) :
    (exec_help_loop env argv1 l).status = Status.returned EX_USAGE
    ∨ (exec_help_loop env argv1 l).status = Status.returned 0
    ∨ (exec_help_loop env argv1 l).status = Status.exited 1 := by
  induction l with
  | nil => exact Or.inl rfl
  | cons p l ih =>
    rw [exec_help_loop_cons]
    split
    · split
      · exact Or.inr (Or.inl rfl)
      · exact Or.inr (Or.inr rfl)
    · exact ih

theorem handler_calls_exec_help_loop (env : Env) (argv1 : String) (l : List commands) :
    handler_calls (exec_help_loop env argv1 l).trace = [] := by
  induction l with
  | nil => rfl
  | cons p l ih =>
    rw [exec_help_loop_cons]
    split
    · split
      · rfl
      · rfl
    · exact ih

theorem handler_calls_usage_help (tbl : List commands) :
    handler_calls (usage_help tbl) = [] := by
  simp [usage_help, handler_calls_append, handler_calls_name_lines, handler_calls]

theorem handler_calls_exec_help (tbl : List commands) (env : Env) (argc : Int)
    (argv : List String) : handler_calls (exec_help tbl env argc argv).trace = [] := by
  unfold exec_help
  split
  · exact handler_calls_usage_help tbl
  · split
    · rfl
    · split
      · exact handler_calls_usage_help tbl
      · exact handler_calls_exec_help_loop env _ tbl

theorem exec_help_status (tbl : List commands) (env : Env) (argv : List String) :
    (exec_help tbl env argv.length argv).status = Status.returned EX_USAGE
    ∨ (exec_help tbl env argv.length argv).status = Status.returned 0
    ∨ (exec_help tbl env argv.length argv).status = Status.exited 1 := by
  by_cases h : ((argv.length : Nat) : Int) ≠ 2
  · have hrun : exec_help tbl env argv.length argv
        = ⟨usage_help tbl, Status.returned EX_USAGE⟩ := by
      unfold exec_help
      rw [if_pos h]
    rw [hrun]
    exact Or.inl rfl
  · have hlen : 1 < argv.length := by omega
    have h1 : argv[1]? = some argv[1] := List.getElem?_eq_getElem hlen
    have hrun : exec_help tbl env argv.length argv
        = if strcmp "help" argv[1] = 0 then ⟨usage_help tbl, Status.returned EX_USAGE⟩
          else exec_help_loop env argv[1] tbl := by
      unfold exec_help
      rw [if_neg h]
      simp only [h1]
    rw [hrun]
    split
    · exact Or.inl rfl
    · exact exec_help_loop_status env _ tbl

theorem handler_calls_call_handler (tbl : List commands) (env : Env) (f : String)
    (argc : Int) (argv : List String) :
    handler_calls (call_handler tbl env f argc argv).trace = [] := by
  unfold call_handler
  split
  · exact handler_calls_exec_help tbl env argc argv
  · rfl

theorem call_handler_status (tbl : List commands) (env : Env) (f : String)
    (argv : List String) :
    (∃ r, (call_handler tbl env f argv.length argv).status = Status.returned r)
    ∨ (f = "exec_help"
      ∧ (call_handler tbl env f argv.length argv).status = Status.exited 1) := by
  by_cases hf : f = "exec_help"
  · rw [hf, call_handler_of_exec_help]
    rcases exec_help_status tbl env argv with h | h | h
    · exact Or.inl ⟨_, h⟩
    · exact Or.inl ⟨_, h⟩
    · exact Or.inr ⟨rfl, h⟩
  · rw [call_handler_of_other tbl env f _ _ hf]
    exact Or.inl ⟨_, rfl⟩

theorem argc_pred_eq {argc : Int} {argv : List String} (hargc : argc = argv.length)
    (h : ¬ argc < 2) : argc - 1 = ((argv.tail.length : Nat) : Int) := by
  rw [List.length_tail]
  omega

theorem handler_calls_resolved (tbl : List commands) (env : Env) (f : String)
    (argc : Int) (argv : List String) :
    handler_calls (install_callback ++ [Effect.call f argc argv]
      ++ (call_handler tbl env f argc argv).trace) = [(f, argc, argv)] := by
  rw [handler_calls_append, handler_calls_call_handler, List.append_nil]
  rfl

/-! ## Exit status and arguments -/

theorem main_of_no_command (tbl : List commands) (env : Env) (argc : Int)
    (argv : List String) (h : argc < 2) : main tbl env argc argv = usage tbl := by
  unfold main
  rw [if_pos h]

theorem handler_calls_usage_trace (tbl : List commands) :
    handler_calls (usage tbl).trace = [] := by
  simp [usage, handler_calls_append, handler_calls_name_lines, handler_calls]

theorem exists_token {argc : Int} {argv : List String} (hargc : argc = argv.length)
    (h : ¬ argc < 2) : ∃ tok, argv[1]? = some tok := by
  have hlt : 1 < argv.length := by omega
  exact ⟨argv[1], List.getElem?_eq_getElem hlt⟩

/-- C6 as stated fails: for `pkg help add` with `asprintf` finding no memory,
`main` calls one handler, `exec_help`, which does not return but ends the
process through `errx` with status 1: the run ends neither with a value the
handler returns nor, without a handler call, with `EX_USAGE`. -/
theorem main_exit_status_dichotomy_counterexample :
    main cmd env_oom 3 ["pkg", "help", "add"]
      = ⟨[Effect.pkg_get_handle, Effect.pkg_handle_set_event_callback "event_callback",
          Effect.call "exec_help" 2 ["help", "add"],
          Effect.errx 1 "cannot allocate memory"],
         Status.exited 1⟩
    ∧ handler_calls (main cmd env_oom 3 ["pkg", "help", "add"]).trace
        = [("exec_help", 2, ["help", "add"])]
    ∧ (∀ r, (main cmd env_oom 3 ["pkg", "help", "add"]).status ≠ Status.returned r)
    ∧ exit_status (main cmd env_oom 3 ["pkg", "help", "add"]).status = some 1
    ∧ exit_status (main cmd env_oom 3 ["pkg", "help", "add"]).status ≠ some EX_USAGE := by
  refine ⟨by decide, by decide, ?_, by decide, by decide⟩
  intro r h
  have hs : (main cmd env_oom 3 ["pkg", "help", "add"]).status = Status.exited 1 := by
    decide
  rw [hs] at h
  cases h

/-- C6, amended. Exit status on the table of the program: for every argument
vector `main` either calls one handler once and ends the way that handler ends,
that is, it returns the value the handler returns or, for `exec_help` when
`asprintf` finds no memory, the process ends inside the handler with status 1;
or it calls no handler and ends with `EX_USAGE`, which is not 0. A handler
other than `exec_help` returns, and `main` returns its value. The second case
covers no command, an unknown command and an ambiguous command. -/
theorem main_exit_status_dichotomy (env : Env) (argc : Int) (argv : List String)
    (hargc : argc = argv.length) :
    ((∃ f a v, handler_calls (main cmd env argc argv).trace = [(f, a, v)]
        ∧ (main cmd env argc argv).status = (call_handler cmd env f a v).status
        ∧ ((∃ r, (main cmd env argc argv).status = Status.returned r)
          ∨ (f = "exec_help" ∧ (main cmd env argc argv).status = Status.exited 1))
        ∧ (f ≠ "exec_help" →
            (main cmd env argc argv).status = Status.returned (env.run f a v)))
      ∨ (handler_calls (main cmd env argc argv).trace = []
        ∧ exit_status (main cmd env argc argv).status = some EX_USAGE))
    ∧ EX_USAGE ≠ 0
    ∧ (argc < 2 →
        handler_calls (main cmd env argc argv).trace = []
        ∧ exit_status (main cmd env argc argv).status = some EX_USAGE)
    ∧ (∀ tok, argv[1]? = some tok → candidates cmd tok = [] →
        handler_calls (main cmd env argc argv).trace = []
        ∧ exit_status (main cmd env argc argv).status = some EX_USAGE)
    ∧ (∀ tok, argv[1]? = some tok → 2 ≤ (candidates cmd tok).length →
        handler_calls (main cmd env argc argv).trace = []
        ∧ exit_status (main cmd env argc argv).status = some EX_USAGE) := by
  have hnone : argc < 2 →
      handler_calls (main cmd env argc argv).trace = []
      ∧ exit_status (main cmd env argc argv).status = some EX_USAGE := by
    intro h
    rw [main_of_no_command cmd env argc argv h]
    exact ⟨handler_calls_usage_trace cmd, rfl⟩
  have hunknown : ∀ tok, argv[1]? = some tok → candidates cmd tok = [] →
      handler_calls (main cmd env argc argv).trace = []
      ∧ exit_status (main cmd env argc argv).status = some EX_USAGE := by
    intro tok h1 hno
    rw [main_of_scan_not_found cmd env argc argv tok 0 (two_le_argc hargc h1) h1
      (scan_not_found cmd tok hno)]
    exact ⟨handler_calls_usage cmd, rfl⟩
  have hambiguous : ∀ tok, argv[1]? = some tok → 2 ≤ (candidates cmd tok).length →
      handler_calls (main cmd env argc argv).trace = []
      ∧ exit_status (main cmd env argc argv).status = some EX_USAGE := by
    intro tok h1 hamb
    obtain ⟨i, hscan⟩ := scan_ambiguous cmd tok cmd_length
      (cmd_no_exact_of_ambiguous tok hamb) hamb
    rw [main_of_scan_ambiguous cmd env argc argv tok i _ (two_le_argc hargc h1) h1 hscan hamb]
    exact ⟨handler_calls_ambiguous cmd tok _ _ _, rfl⟩
  refine ⟨?_, by decide, hnone, hunknown, hambiguous⟩
  by_cases h : argc < 2
  · exact Or.inr (hnone h)
  · obtain ⟨tok, h1⟩ := exists_token hargc h
    cases hs : main_scan tok (strlen tok) cmd 0 none 0 with
    | mk command a =>
      cases command with
      | none =>
        right
        rw [main_of_scan_not_found cmd env argc argv tok a h h1 hs]
        exact ⟨handler_calls_usage cmd, rfl⟩
      | some i =>
        by_cases ha : a ≤ 1
        · left
          have hidx := main_scan_index tok (strlen tok) cmd 0 none 0 i a hs
          have hlt : i < cmd.length := by
            rcases hidx with h3 | h3
            · cases h3
            · omega
          have hi : cmd[i]? = some cmd[i] := List.getElem?_eq_getElem hlt
          obtain ⟨f, hf⟩ := Option.isSome_iff_exists.1
            (cmd_exec_ne_null cmd[i] (List.getElem?_mem hi))
          obtain ⟨hmain, hother⟩ :=
            main_of_scan_resolved cmd env argc argv tok i a cmd[i] f h h1 hs ha hi hf
          refine ⟨f, argc - 1, argv.tail, ?_, ?_, ?_, ?_⟩
          · rw [hmain]
            exact handler_calls_resolved cmd env f _ _
          · rw [hmain]
          · rw [hmain]
            have hst := call_handler_status cmd env f argv.tail
            rw [← argc_pred_eq hargc h] at hst
            exact hst
          · intro hne
            rw [hother hne]
        · right
          rw [main_of_scan_ambiguous cmd env argc argv tok i a h h1 hs (by omega)]
          exact ⟨handler_calls_ambiguous cmd tok _ _ _, rfl⟩

theorem main_exit_status_dichotomy_witness :
    ((∃ f a v, handler_calls (main cmd env3 1 ["pkg"]).trace = [(f, a, v)]
        ∧ (main cmd env3 1 ["pkg"]).status = (call_handler cmd env3 f a v).status
        ∧ ((∃ r, (main cmd env3 1 ["pkg"]).status = Status.returned r)
          ∨ (f = "exec_help" ∧ (main cmd env3 1 ["pkg"]).status = Status.exited 1))
        ∧ (f ≠ "exec_help" →
            (main cmd env3 1 ["pkg"]).status = Status.returned (env3.run f a v)))
      ∨ (handler_calls (main cmd env3 1 ["pkg"]).trace = []
        ∧ exit_status (main cmd env3 1 ["pkg"]).status = some EX_USAGE))
    ∧ ((∃ f a v, handler_calls (main cmd env3 2 ["pkg", "info"]).trace = [(f, a, v)]
        ∧ (main cmd env3 2 ["pkg", "info"]).status = (call_handler cmd env3 f a v).status
        ∧ ((∃ r, (main cmd env3 2 ["pkg", "info"]).status = Status.returned r)
          ∨ (f = "exec_help"
            ∧ (main cmd env3 2 ["pkg", "info"]).status = Status.exited 1))
        ∧ (f ≠ "exec_help" →
            (main cmd env3 2 ["pkg", "info"]).status = Status.returned (env3.run f a v)))
      ∨ (handler_calls (main cmd env3 2 ["pkg", "info"]).trace = []
        ∧ exit_status (main cmd env3 2 ["pkg", "info"]).status = some EX_USAGE)) :=
  ⟨(main_exit_status_dichotomy env3 1 ["pkg"] rfl).1,
   (main_exit_status_dichotomy env3 2 ["pkg", "info"] rfl).1⟩

theorem main_dispatches_to_exec_help :
    main cmd env0 3 ["pkg", "help", "add"]
      = ⟨[Effect.pkg_get_handle, Effect.pkg_handle_set_event_callback "event_callback",
          Effect.call "exec_help" 2 ["help", "add"],
          Effect.system "/usr/bin/man pkg-add"],
         Status.returned 0⟩
    ∧ main cmd env0 2 ["pkg", "help"]
      = ⟨[Effect.pkg_get_handle, Effect.pkg_handle_set_event_callback "event_callback",
          Effect.call "exec_help" 1 ["help"]] ++ usage_help cmd,
         Status.returned 64⟩ := by
  decide

/-- C7. Pass-through: when the loop of `main` ends on entry `i` with
`ambiguous` at most 1, `main` calls that entry's handler with `argc - 1` and
the argument vector without its first element, which starts with the token and
continues with the remaining arguments, and `main` ends the way the handler
ends: the value the handler returns is the value `main` returns, unchanged. A
handler other than `exec_help` returns the value the environment gives. -/
theorem resolved_handler_gets_shifted_arguments (tbl : List commands) (env : Env)
    (argc : Int) (argv : List String) (tok : String) (i a : Nat) (c : commands)
    (f : String)
    (hargc : argc = argv.length) (h1 : argv[1]? = some tok)
    (hscan : main_scan tok (strlen tok) tbl 0 none 0 = (some i, a)) (ha : a ≤ 1)
    (hi : tbl[i]? = some c) (hf : c.exec = some f) :
    main tbl env argc argv
      = ⟨install_callback ++ [Effect.call f (argc - 1) argv.tail]
          ++ (call_handler tbl env f (argc - 1) argv.tail).trace,
         (call_handler tbl env f (argc - 1) argv.tail).status⟩
    ∧ argv.tail = tok :: argv.drop 2
    ∧ handler_calls (main tbl env argc argv).trace = [(f, argc - 1, argv.tail)]
    ∧ (∀ r, (call_handler tbl env f (argc - 1) argv.tail).status = Status.returned r →
        (main tbl env argc argv).status = Status.returned r)
    ∧ (f ≠ "exec_help" →
        main tbl env argc argv
          = ⟨install_callback ++ [Effect.call f (argc - 1) argv.tail],
             Status.returned (env.run f (argc - 1) argv.tail)⟩
        ∧ (main tbl env argc argv).status
          = Status.returned (env.run f (argc - 1) argv.tail)) := by
  obtain ⟨hmain, hother⟩ := main_of_scan_resolved tbl env argc argv tok i a c f
    (two_le_argc hargc h1) h1 hscan ha hi hf
  have htail : argv.tail = tok :: argv.drop 2 := by
    match argv, h1 with
    | [], h => cases h
    | [_], h => cases h
    | _ :: t :: rest, h =>
      have ht : t = tok := by simpa using h
      rw [ht]; rfl
  refine ⟨hmain, htail, ?_, ?_, ?_⟩
  · rw [hmain]
    exact handler_calls_resolved tbl env f _ _
  · intro r hr
    rw [hmain]
    exact hr
  · intro hne
    refine ⟨hother hne, ?_⟩
    rw [hother hne]

theorem resolved_handler_gets_shifted_arguments_witness :
    main cmd env3 4 ["pkg", "del", "-f", "foo"]
      = ⟨[Effect.pkg_get_handle, Effect.pkg_handle_set_event_callback "event_callback",
          Effect.call "exec_delete" 3 ["del", "-f", "foo"]],
         Status.returned 3⟩
    ∧ ["del", "-f", "foo"] = "del" :: ["-f", "foo"]
    ∧ handler_calls (main cmd env3 4 ["pkg", "del", "-f", "foo"]).trace
        = [("exec_delete", 3, ["del", "-f", "foo"])]
    ∧ (main cmd env3 4 ["pkg", "del", "-f", "foo"]).status = Status.returned 3 := by
  obtain ⟨_, htail, hcalls, _, hother⟩ :=
    resolved_handler_gets_shifted_arguments cmd env3 4 ["pkg", "del", "-f", "foo"] "del" 2 1
      ⟨"delete", some "exec_delete", some "usage_delete"⟩ "exec_delete"
      rfl rfl (by decide) (by decide) rfl rfl
  exact ⟨(hother (by decide)).1, htail, hcalls, (hother (by decide)).2⟩

/-! ## The help subcommand -/

theorem exec_help_loop_not_found (env : Env) (argv1 : String) (l : List commands)
    (hl : ∀ c ∈ l, c.name ≠ argv1) :
    exec_help_loop env argv1 l
      = ⟨[Effect.warnx ("'" ++ argv1 ++ "' is not a valid command.\n"),
          Effect.stderr "See 'pkg help' for more information on the commands.\n"],
         Status.returned EX_USAGE⟩ := by
  induction l with
  | nil => rfl
  | cons p l ih =>
    have h0 : ¬ strcmp p.name argv1 = 0 := by
      rw [strcmp_eq_zero]; exact hl p (List.mem_cons_self _ _)
    show (if strcmp p.name argv1 = 0 then _ else _) = _
    rw [if_neg h0]
    exact ih (fun c hc => hl c (List.mem_cons_of_mem _ hc))

theorem exec_help_loop_found (env : Env) (c : commands) (l : List commands)
    (hc : c ∈ l) :
    exec_help_loop env c.name l
      = if env.asprintf_ok ("/usr/bin/man pkg-" ++ c.name) then
          ⟨[Effect.system ("/usr/bin/man pkg-" ++ c.name)], Status.returned 0⟩
        else ⟨[Effect.errx 1 "cannot allocate memory"], Status.exited 1⟩ := by
  induction l with
  | nil => cases hc
  | cons p l ih =>
    by_cases hp : p.name = c.name
    · have h0 : strcmp p.name c.name = 0 := (strcmp_eq_zero _ _).2 hp
      show (if strcmp p.name c.name = 0 then _ else _) = _
      rw [if_pos h0, hp]
    · have h0 : ¬ strcmp p.name c.name = 0 := by
        rw [strcmp_eq_zero]; exact hp
      show (if strcmp p.name c.name = 0 then _ else _) = _
      rw [if_neg h0]
      rcases List.mem_cons.1 hc with rfl | hc
      · exact absurd rfl hp
      · exact ih hc

theorem exec_help_of_name (tbl : List commands) (env : Env) (argv : List String)
    (name : String) (h1 : argv[1]? = some name) (hne : name ≠ "help") :
    exec_help tbl env 2 argv = exec_help_loop env name tbl := by
  have h0 : ¬ strcmp "help" name = 0 := by
    rw [strcmp_eq_zero]; exact fun h => hne h.symm
  unfold exec_help
  simp only [ne_eq, not_true_eq_false, if_false, h1, h0]

theorem exec_help_of_misuse (tbl : List commands) (env : Env) (argc : Int)
    (argv : List String) (h : argc ≠ 2 ∨ argv[1]? = some "help") :
    exec_help tbl env argc argv = ⟨usage_help tbl, Status.returned EX_USAGE⟩ := by
  unfold exec_help
  by_cases hargc : argc ≠ 2
  · rw [if_pos hargc]
  · rw [if_neg hargc]
    rcases h with h | h
    · exact absurd h hargc
    · have h0 : strcmp "help" "help" = 0 := (strcmp_eq_zero _ _).2 rfl
      simp only [h, h0, if_true]

theorem viewer_calls_usage_help (tbl : List commands) :
    viewer_calls (usage_help tbl) = [] := by
  simp [usage_help, viewer_calls_append, viewer_calls_name_lines, viewer_calls]

/-- C8. Help looks names up by exact match: for an argument vector of length 2
whose second element is no registered name of the program, `exec_help` returns
`EX_USAGE` after the "is not a valid command" diagnostic and the pointer to
`pkg help`; it prints no listing of names and does not call `system`. -/
theorem help_rejects_unregistered_name (env : Env) (argv : List String) (name : String)
    (hlen : argv.length = 2) (h1 : argv[1]? = some name)
    (hunreg : ∀ c ∈ cmd, c.name ≠ name) :
    exec_help cmd env argv.length argv
      = ⟨[Effect.warnx ("'" ++ name ++ "' is not a valid command.\n"),
          Effect.stderr "See 'pkg help' for more information on the commands.\n"],
         Status.returned EX_USAGE⟩
    ∧ viewer_calls (exec_help cmd env argv.length argv).trace = [] := by
  have hne : name ≠ "help" := by
    intro h
    exact hunreg ⟨"help", some "exec_help", some "usage_help"⟩ (by decide) h.symm
  have hcast : ((argv.length : Nat) : Int) = 2 := by rw [hlen]; rfl
  have hmain := exec_help_of_name cmd env argv name h1 hne
  rw [exec_help_loop_not_found env name cmd hunreg] at hmain
  rw [hcast, hmain]
  exact ⟨rfl, rfl⟩

theorem help_rejects_unregistered_name_witness :
    exec_help cmd env0 2 ["help", "ve"]
      = ⟨[Effect.warnx "'ve' is not a valid command.\n",
          Effect.stderr "See 'pkg help' for more information on the commands.\n"],
         Status.returned 64⟩
    ∧ viewer_calls (exec_help cmd env0 2 ["help", "ve"]).trace = [] :=
  help_rejects_unregistered_name env0 ["help", "ve"] "ve" rfl rfl (by decide)

/-- C9. Help misuse: for an argument vector whose length is not 2, and for one
whose second element is `help`, `exec_help` prints the text of `usage_help`,
returns `EX_USAGE` and does not call `system`. -/
theorem help_misuse_is_rejected (tbl : List commands) (env : Env) (argv : List String)
    (h : argv.length ≠ 2 ∨ argv[1]? = some "help") :
    exec_help tbl env argv.length argv = ⟨usage_help tbl, Status.returned EX_USAGE⟩
    ∧ viewer_calls (exec_help tbl env argv.length argv).trace = [] := by
  have h2 : ((argv.length : Nat) : Int) ≠ 2 ∨ argv[1]? = some "help" := by
    rcases h with h | h
    · left; omega
    · right; exact h
  rw [exec_help_of_misuse tbl env _ argv h2]
  exact ⟨rfl, viewer_calls_usage_help tbl⟩

theorem help_misuse_is_rejected_witness :
    (exec_help cmd env0 1 ["help"] = ⟨usage_help cmd, Status.returned 64⟩
      ∧ viewer_calls (exec_help cmd env0 1 ["help"]).trace = [])
    ∧ (exec_help cmd env0 2 ["help", "help"] = ⟨usage_help cmd, Status.returned 64⟩
      ∧ viewer_calls (exec_help cmd env0 2 ["help", "help"]).trace = [])
    ∧ (exec_help cmd env0 3 ["help", "add", "info"] = ⟨usage_help cmd, Status.returned 64⟩
      ∧ viewer_calls (exec_help cmd env0 3 ["help", "add", "info"]).trace = []) :=
  ⟨help_misuse_is_rejected cmd env0 ["help"] (Or.inl (by decide)),
   help_misuse_is_rejected cmd env0 ["help", "help"] (Or.inr rfl),
   help_misuse_is_rejected cmd env0 ["help", "add", "info"] (Or.inl (by decide))⟩

/-- C10 as stated fails: `add` is a registered name other than `help`, and when
`asprintf` finds no memory for the command line `exec_help` ends the process
with status 1 through `errx` without calling `system`. -/
theorem help_on_registered_name_counterexample :
    "add" ∈ cmd.map commands.name
    ∧ "add" ≠ "help"
    ∧ exec_help cmd env_oom 2 ["help", "add"]
        = ⟨[Effect.errx 1 "cannot allocate memory"], Status.exited 1⟩
    ∧ viewer_calls (exec_help cmd env_oom 2 ["help", "add"]).trace = []
    ∧ (exec_help cmd env_oom 2 ["help", "add"]).status ≠ Status.returned 0 := by
  decide

/-- C10, amended. Help on a valid command: for a registered name `n` other than
`help`, `exec_help` called with `help`, `n` calls `system` once, on
`/usr/bin/man pkg-n`, and returns 0 for every result of `system`, provided
`asprintf` obtains the memory for that command line; when it does not, `system`
is not called and the process ends with status 1. -/
theorem help_on_registered_name (env : Env) (n : String)
    (hreg : n ∈ cmd.map commands.name) (hne : n ≠ "help") :
    (env.asprintf_ok ("/usr/bin/man pkg-" ++ n) = true →
      exec_help cmd env 2 ["help", n]
        = ⟨[Effect.system ("/usr/bin/man pkg-" ++ n)], Status.returned 0⟩
      ∧ viewer_calls (exec_help cmd env 2 ["help", n]).trace = ["/usr/bin/man pkg-" ++ n])
    ∧ (env.asprintf_ok ("/usr/bin/man pkg-" ++ n) = false →
      exec_help cmd env 2 ["help", n]
        = ⟨[Effect.errx 1 "cannot allocate memory"], Status.exited 1⟩
      ∧ viewer_calls (exec_help cmd env 2 ["help", n]).trace = []) := by
  obtain ⟨c, hc, hcn⟩ := List.mem_map.1 hreg
  have hmain := exec_help_of_name cmd env ["help", n] n rfl hne
  have hloop := exec_help_loop_found env c cmd hc
  rw [hcn] at hloop
  rw [hmain, hloop]
  constructor
  · intro hok
    rw [if_pos hok]
    exact ⟨rfl, rfl⟩
  · intro hfail
    rw [if_neg (by rw [hfail]; decide)]
    exact ⟨rfl, rfl⟩

theorem help_on_registered_name_witness :
    exec_help cmd env0 2 ["help", "add"]
      = ⟨[Effect.system "/usr/bin/man pkg-add"], Status.returned 0⟩
    ∧ viewer_calls (exec_help cmd env0 2 ["help", "add"]).trace = ["/usr/bin/man pkg-add"] :=
  (help_on_registered_name env0 "add" (by decide) (by decide)).1 rfl

/-! ## The text of the usage routines -/

theorem stderr_text_usage_help_ne (tbl : List commands) :
    stderr_text (usage_help tbl) ≠ stderr_text (usage tbl).trace := by
  intro h
  have h2 := congrArg (fun s : String => s.data.take 12) h
  simp only [usage_help, usage, List.cons_append, List.nil_append, stderr_text,
    String.data_append] at h2
  simp [List.take] at h2

/-- C11 as stated fails: what `exec_help` writes for `pkg help` and for
`pkg help help` is not what `usage` writes, which is what `main` writes when no
command is given. -/
theorem help_prints_top_level_usage_counterexample :
    (main cmd env0 1 ["pkg"]).trace = (usage cmd).trace
    ∧ (exec_help cmd env0 1 ["help"]).trace ≠ (usage cmd).trace
    ∧ stderr_text (exec_help cmd env0 1 ["help"]).trace ≠ stderr_text (usage cmd).trace
    ∧ (exec_help cmd env0 2 ["help", "help"]).trace ≠ (usage cmd).trace
    ∧ stderr_text (exec_help cmd env0 2 ["help", "help"]).trace
        ≠ stderr_text (usage cmd).trace := by
  decide

/-- C11, amended. When help is invoked with an argument count other than 2 or
with `help` itself, what it writes to standard error is the text of
`usage_help`: its own first line `usage: pkg help <command>`, then the line
`Where <command> can be:` and the listing of names that `usage` prints too;
the first line of `usage` and its closing line are not part of it, so the two
texts differ. -/
theorem help_prints_usage_help (tbl : List commands) (env : Env) (argv : List String)
    (h : argv.length ≠ 2 ∨ argv[1]? = some "help") :
    (exec_help tbl env argv.length argv).trace
      = [Effect.stderr "usage: pkg help <command>\n\n",
         Effect.stderr "Where <command> can be:\n"]
        ++ tbl.map (fun c => Effect.stderr ("\t" ++ c.name ++ "\n"))
    ∧ (usage tbl).trace
      = [Effect.stderr "usage: pkg <command> [<args>]\n\n",
         Effect.stderr "Where <command> can be:\n"]
        ++ tbl.map (fun c => Effect.stderr ("\t" ++ c.name ++ "\n"))
        ++ [Effect.stderr
          "\nFor more information on the different commands see 'pkg help <command>'.\n"]
    ∧ stderr_text (exec_help tbl env argv.length argv).trace
        ≠ stderr_text (usage tbl).trace := by
  have h2 : ((argv.length : Nat) : Int) ≠ 2 ∨ argv[1]? = some "help" := by
    rcases h with h | h
    · left; omega
    · right; exact h
  rw [exec_help_of_misuse tbl env _ argv h2]
  exact ⟨rfl, rfl, stderr_text_usage_help_ne tbl⟩

theorem help_prints_usage_help_witness :
    (exec_help tbl_short env0 1 ["help"]).trace
      = [Effect.stderr "usage: pkg help <command>\n\n",
         Effect.stderr "Where <command> can be:\n",
         Effect.stderr "\tup\n", Effect.stderr "\tupdate\n"]
    ∧ (usage tbl_short).trace
      = [Effect.stderr "usage: pkg <command> [<args>]\n\n",
         Effect.stderr "Where <command> can be:\n",
         Effect.stderr "\tup\n", Effect.stderr "\tupdate\n",
         Effect.stderr
          "\nFor more information on the different commands see 'pkg help <command>'.\n"]
    ∧ stderr_text (exec_help tbl_short env0 1 ["help"]).trace
        ≠ stderr_text (usage tbl_short).trace :=
  help_prints_usage_help tbl_short env0 ["help"] (Or.inl (by decide))

/-! ## The empty token -/

theorem candidates_empty_token (tbl : List commands) : candidates tbl "" = tbl := by
  unfold candidates
  rw [List.filter_eq_self]
  intro c _
  have hc : starts_with c.name "" := List.nil_prefix
  simpa using hc

/-- C12. Empty token: in a table of at least two entries (and fewer than
`2 ^ 32`, the range of `cmd_len`), all with non-empty names, the empty token is
ambiguous: `main` calls no handler, returns `EX_USAGE`, and the candidate lines
are the names of all entries in table order. -/
theorem empty_token_is_ambiguous (tbl : List commands) (env : Env) (argc : Int)
    (argv : List String)
    (hlen : tbl.length < 2 ^ 32) (htwo : 2 ≤ tbl.length)
    (hnames : ∀ c ∈ tbl, c.name ≠ "")
    (hargc : argc = argv.length) (h1 : argv[1]? = some "") :
    main tbl env argc argv
      = ⟨install_callback
          ++ [Effect.warnx "'' is not a valid command.\n",
              Effect.stderr "See 'pkg help' for more information on the commands.\n\n",
              Effect.stderr "Command '' could be one of the following:\n"]
          ++ tbl.map (fun c => Effect.stderr ("\t" ++ c.name ++ "\n")),
         Status.returned EX_USAGE⟩
    ∧ handler_calls (main tbl env argc argv).trace = [] := by
  have hamb : 2 ≤ (candidates tbl "").length := by
    rw [candidates_empty_token]; exact htwo
  obtain ⟨i, hscan⟩ := scan_ambiguous tbl "" hlen hnames hamb
  have hmain := main_of_scan_ambiguous tbl env argc argv "" i _
    (two_le_argc hargc h1) h1 hscan hamb
  rw [candidates_empty_token] at hmain
  refine ⟨hmain, ?_⟩
  rw [hmain]
  have := handler_calls_ambiguous tbl "" ("'" ++ "" ++ "' is not a valid command.\n")
    "See 'pkg help' for more information on the commands.\n\n"
    ("Command '" ++ "" ++ "' could be one of the following:\n")
  rw [candidates_empty_token] at this
  exact this

theorem empty_token_is_ambiguous_witness :
    main tbl_short env0 2 ["pkg", ""]
      = ⟨[Effect.pkg_get_handle, Effect.pkg_handle_set_event_callback "event_callback",
          Effect.warnx "'' is not a valid command.\n",
          Effect.stderr "See 'pkg help' for more information on the commands.\n\n",
          Effect.stderr "Command '' could be one of the following:\n",
          Effect.stderr "\tup\n", Effect.stderr "\tupdate\n"],
         Status.returned 64⟩
    ∧ handler_calls (main tbl_short env0 2 ["pkg", ""]).trace = [] :=
  empty_token_is_ambiguous tbl_short env0 2 ["pkg", ""] (by decide) (by decide)
    (by decide) rfl rfl

/-! ## The event callback -/

/-- C13. Install-begin event: for a first payload that is a package whose name
field, as `pkg_get` returns it, is the string `n`, `event_callback` writes the
one line `Installing n` to standard output, nothing to standard error, and
returns 0, whatever the second payload is. -/
theorem install_begin_prints_name (mem : Payloads) (arg0 arg1 : Nat) (n : String)
    (hname : mem.pkg_get_name arg0 = some n) :
    event_callback mem pkg_event_t.PKG_EVENT_INSTALL_BEGIN arg0 arg1
      = some ⟨[Effect.stdout ("Installing " ++ n ++ "\n")], Status.returned 0⟩
    ∧ ∃ out, event_callback mem pkg_event_t.PKG_EVENT_INSTALL_BEGIN arg0 arg1 = some out
      ∧ out.trace.filter writes_stdout = [Effect.stdout ("Installing " ++ n ++ "\n")]
      ∧ out.trace.filter writes_stderr = []
      ∧ out.status = Status.returned 0 := by
  have h : event_callback mem pkg_event_t.PKG_EVENT_INSTALL_BEGIN arg0 arg1
      = some ⟨[Effect.stdout ("Installing " ++ n ++ "\n")], Status.returned 0⟩ := by
    unfold event_callback
    simp only [hname]
  exact ⟨h, _, h, rfl, rfl, rfl⟩

theorem install_begin_prints_name_witness :
    event_callback mem_foo pkg_event_t.PKG_EVENT_INSTALL_BEGIN 1 0
      = some ⟨[Effect.stdout "Installing foo\n"], Status.returned 0⟩
    ∧ ∃ out, event_callback mem_foo pkg_event_t.PKG_EVENT_INSTALL_BEGIN 1 0 = some out
      ∧ out.trace.filter writes_stdout = [Effect.stdout "Installing foo\n"]
      ∧ out.trace.filter writes_stderr = []
      ∧ out.status = Status.returned 0 :=
  install_begin_prints_name mem_foo 1 0 "foo" rfl

/-- C14. Unknown events are inert: for an event kind other than install-begin
and archive-error `event_callback` writes nothing and returns 0 for every pair
of payloads, and its result is the same for any other pair of payloads and
whatever lies behind them: it reads neither. -/
theorem unknown_event_is_inert (mem : Payloads) (ev : pkg_event_t) (arg0 arg1 : Nat)
    (hinstall : ev ≠ pkg_event_t.PKG_EVENT_INSTALL_BEGIN)
    (harchive : ev ≠ pkg_event_t.PKG_EVENT_ARCHIVE_ERROR) :
    event_callback mem ev arg0 arg1 = some ⟨[], Status.returned 0⟩
    ∧ (∀ (mem2 : Payloads) (b0 b1 : Nat),
        event_callback mem2 ev b0 b1 = event_callback mem ev arg0 arg1) := by
  cases ev with
  | PKG_EVENT_INSTALL_BEGIN => exact absurd rfl hinstall
  | PKG_EVENT_ARCHIVE_ERROR => exact absurd rfl harchive
  | other code => exact ⟨rfl, fun _ _ _ => rfl⟩

theorem unknown_event_is_inert_witness :
    event_callback mem_foo (pkg_event_t.other 7) 0 1 = some ⟨[], Status.returned 0⟩
    ∧ (∀ (mem2 : Payloads) (b0 b1 : Nat),
        event_callback mem2 (pkg_event_t.other 7) b0 b1
          = event_callback mem_foo (pkg_event_t.other 7) 0 1) :=
  unknown_event_is_inert mem_foo (pkg_event_t.other 7) 0 1 (by decide) (by decide)

/-! ## The listings -/

theorem listed_name_line (name : String) :
    listed_name (Effect.stderr ("\t" ++ name ++ "\n")) = some name := by
  have hdata : ("\t" ++ name ++ "\n").data = '\t' :: (name.data ++ ['\n']) := by
    simp [String.data_append]
  show (match ("\t" ++ name ++ "\n").data with
    | '\t' :: rest => some (String.mk rest.dropLast)
    | _ => none) = some name
  rw [hdata]
  simp

theorem listed_names_name_lines (tbl : List commands) :
    listed_names (name_lines tbl) = tbl.map commands.name := by
  induction tbl with
  | nil => rfl
  | cons c tbl ih =>
    show List.filterMap listed_name
      (Effect.stderr ("\t" ++ c.name ++ "\n") :: name_lines tbl) = _
    rw [List.filterMap_cons, listed_name_line]
    exact congrArg (c.name :: ·) ih

/-- C15. Listing order: the command names that `usage` and `usage_help` print,
one per line between a tab and a newline, are the names of the command table,
one line per entry, in table order; for the table of the program they are add,
create, delete, help, info, register, repo, update, upgrade, version, which. -/
theorem listings_follow_table_order (tbl : List commands) :
    listed_names (usage tbl).trace = tbl.map commands.name
    ∧ listed_names (usage_help tbl) = tbl.map commands.name
    ∧ listed_names (usage cmd).trace
        = ["add", "create", "delete", "help", "info", "register", "repo", "update",
           "upgrade", "version", "which"]
    ∧ listed_names (usage_help cmd)
        = ["add", "create", "delete", "help", "info", "register", "repo", "update",
           "upgrade", "version", "which"] := by
  have h1 : listed_names (usage tbl).trace = tbl.map commands.name := by
    show List.filterMap listed_name (_ ++ name_lines tbl ++ _) = _
    rw [List.filterMap_append, List.filterMap_append]
    have hl := listed_names_name_lines tbl
    unfold listed_names at hl
    rw [hl]
    show [] ++ tbl.map commands.name ++ [] = _
    simp
  have h2 : listed_names (usage_help tbl) = tbl.map commands.name := by
    show List.filterMap listed_name (_ ++ name_lines tbl) = _
    rw [List.filterMap_append]
    have hl := listed_names_name_lines tbl
    unfold listed_names at hl
    rw [hl]
    show [] ++ tbl.map commands.name = _
    simp
  exact ⟨h1, h2, by decide, by decide⟩

/-! ## The ambiguity counter -/

/-- C16 as stated fails: on the table of the program the token `ve` equals no
name and is a prefix of one name, and the counter ends at 1, not 0; `up` is a
prefix of two names, and the counter ends at 2, not 1. -/
theorem ambiguity_counter_counterexample :
    (∀ c ∈ cmd, c.name ≠ "ve")
    ∧ (candidates cmd "ve").length = 1
    ∧ (main_scan "ve" (strlen "ve") cmd 0 none 0).2 = 1
    ∧ (main_scan "ve" (strlen "ve") cmd 0 none 0).2 ≠ (candidates cmd "ve").length - 1
    ∧ (∀ c ∈ cmd, c.name ≠ "up")
    ∧ (candidates cmd "up").length = 2
    ∧ (main_scan "up" (strlen "up") cmd 0 none 0).2 = 2
    ∧ (main_scan "up" (strlen "up") cmd 0 none 0).2 ≠ (candidates cmd "up").length - 1 := by
  decide

/-- C16, amended. Ambiguity counter: the loop of `main` increments `ambiguous`
on every prefix match that is not exact, the first one included, so for a token
that equals no registered name and is a prefix of `k` registered names the
counter ends at `k` (for `k = 0` too), in a table of fewer than `2 ^ 32`
entries; the test `ambiguous <= 1` then holds exactly when `k` is at most 1. -/
theorem ambiguity_counter_counts_every_match (tbl : List commands) (tok : String)
    (hlen : tbl.length < 2 ^ 32) (hex : ∀ c ∈ tbl, c.name ≠ tok) :
    (main_scan tok (strlen tok) tbl 0 none 0).2 = (candidates tbl tok).length
    ∧ ((main_scan tok (strlen tok) tbl 0 none 0).2 ≤ 1 ↔ (candidates tbl tok).length ≤ 1) := by
  have h := main_scan_count tok tbl hex 0 none 0 (by norm_num)
  have hle := length_candidates_le tbl tok
  rw [Nat.zero_add, Nat.mod_eq_of_lt (by omega)] at h
  rw [h]
  exact ⟨rfl, Iff.rfl⟩

theorem ambiguity_counter_counts_every_match_witness :
    (main_scan "re" (strlen "re") cmd 0 none 0).2 = 2
    ∧ ((main_scan "re" (strlen "re") cmd 0 none 0).2 ≤ 1 ↔ 2 ≤ 1) :=
  ambiguity_counter_counts_every_match cmd "re" (by decide) (by decide)

/-! ## The registry invariant -/

/-- C17. Registry invariant: in the command table of the program every name is
a non-empty string and no two entries have the same name: the names are
pairwise different as strings, and `strcmp` of the names of two entries is 0
only for an entry and itself. -/
theorem cmd_names_nonempty_and_distinct :
    (∀ c ∈ cmd, c.name ≠ "" ∧ 0 < strlen c.name)
    ∧ (cmd.map commands.name).Nodup
    ∧ (∀ i j : Fin cmd.length,
        strcmp (cmd.get i).name (cmd.get j).name = 0 → i = j) := by
  refine ⟨?_, ?_, ?_⟩
  · decide
  · decide
  · decide

/-! ## Reads of the argument vector and calls through a handler pointer -/

theorem main_cmd_ends (env : Env) (argc : Int) (argv : List String)
    (hargc : argc = argv.length) :
    ∃ v, (main cmd env argc argv).status = Status.returned v
      ∨ (main cmd env argc argv).status = Status.exited v := by
  by_cases h : argc < 2
  · rw [main_of_no_command cmd env argc argv h]
    exact ⟨EX_USAGE, Or.inr rfl⟩
  · obtain ⟨tok, h1⟩ := exists_token hargc h
    cases hs : main_scan tok (strlen tok) cmd 0 none 0 with
    | mk command a =>
      cases command with
      | none =>
        rw [main_of_scan_not_found cmd env argc argv tok a h h1 hs]
        exact ⟨EX_USAGE, Or.inr rfl⟩
      | some i =>
        by_cases ha : a ≤ 1
        · have hidx := main_scan_index tok (strlen tok) cmd 0 none 0 i a hs
          have hlt : i < cmd.length := by
            rcases hidx with h3 | h3
            · cases h3
            · omega
          have hi : cmd[i]? = some cmd[i] := List.getElem?_eq_getElem hlt
          obtain ⟨f, hf⟩ := Option.isSome_iff_exists.1
            (cmd_exec_ne_null cmd[i] (List.getElem?_mem hi))
          rw [(main_of_scan_resolved cmd env argc argv tok i a cmd[i] f h h1 hs ha hi hf).1]
          have hst := call_handler_status cmd env f argv.tail
          rw [← argc_pred_eq hargc h] at hst
          rcases hst with ⟨r, hr⟩ | ⟨_, hx⟩
          · exact ⟨r, Or.inl hr⟩
          · exact ⟨1, Or.inr hx⟩
        · rw [main_of_scan_ambiguous cmd env argc argv tok i a h h1 hs (by omega)]
          exact ⟨EX_USAGE, Or.inl rfl⟩

theorem exec_help_loop_ends (env : Env) (argv1 : String) (l : List commands) :
    (exec_help_loop env argv1 l).status ≠ Status.fault := by
  induction l with
  | nil => intro h; cases h
  | cons p l ih =>
    show (if strcmp p.name argv1 = 0 then
      (if env.asprintf_ok ("/usr/bin/man pkg-" ++ p.name) then
        (⟨[Effect.system ("/usr/bin/man pkg-" ++ p.name)], Status.returned 0⟩ : Outcome)
      else ⟨[Effect.errx 1 "cannot allocate memory"], Status.exited 1⟩)
      else exec_help_loop env argv1 l).status ≠ Status.fault
    split
    · split
      · intro h; cases h
      · intro h; cases h
    · exact ih

theorem exec_help_in_range (tbl : List commands) (env : Env) (argv : List String) :
    (exec_help tbl env argv.length argv).status ≠ Status.fault := by
  by_cases h : ((argv.length : Nat) : Int) ≠ 2
  · rw [exec_help_of_misuse tbl env _ argv (Or.inl h)]
    intro h2; cases h2
  · have hlen : 1 < argv.length := by omega
    have h1 : argv[1]? = some argv[1] := List.getElem?_eq_getElem hlen
    by_cases hhelp : argv[1] = "help"
    · rw [exec_help_of_misuse tbl env _ argv (Or.inr (by rw [h1, hhelp]))]
      intro h2; cases h2
    · have h2 : ((argv.length : Nat) : Int) = 2 := by omega
      rw [h2, exec_help_of_name tbl env argv argv[1] h1 hhelp]
      exact exec_help_loop_ends env _ tbl

theorem main_null_handler_aborts :
    (main tbl_null env0 2 ["pkg", "add"]).status = Status.aborted := by
  decide

theorem main_short_vector_faults :
    (main cmd env0 2 ["pkg"]).status = Status.fault := by
  decide

/-- C18. No out-of-range or null access: for every argument vector, with
`argc` its length, `main` on the table of the program neither reads past the
vector nor fails the assertion on the handler pointer, and `exec_help` does not
read past the vector; with `argc < 2` the outcome of `main` is that of `usage`,
which ends the process, for any vector at all (`argv[1]` is not read), and with
`argc` other than 2 the outcome of `exec_help` is the same for any vector. -/
theorem no_out_of_range_or_null_access (env : Env) (argv : List String) :
    (main cmd env argv.length argv).status ≠ Status.fault
    ∧ (main cmd env argv.length argv).status ≠ Status.aborted
    ∧ (∀ tbl : List commands, (exec_help tbl env argv.length argv).status ≠ Status.fault)
    ∧ (∀ (argc : Int) (other : List String), argc < 2 →
        main cmd env argc other = usage cmd)
    ∧ (usage cmd).status = Status.exited EX_USAGE
    ∧ (∀ (tbl : List commands) (argc : Int) (other : List String), argc ≠ 2 →
        exec_help tbl env argc other = ⟨usage_help tbl, Status.returned EX_USAGE⟩) := by
  obtain ⟨v, hv⟩ := main_cmd_ends env argv.length argv rfl
  refine ⟨?_, ?_, fun tbl => exec_help_in_range tbl env argv,
    fun argc other h => main_of_no_command cmd env argc other h, rfl,
    fun tbl argc other h => exec_help_of_misuse tbl env argc other (Or.inl h)⟩
  · rcases hv with hv | hv <;> rw [hv] <;> intro h <;> cases h
  · rcases hv with hv | hv <;> rw [hv] <;> intro h <;> cases h

end Pkg
